import Mathlib

set_option maxRecDepth 8000

/-
  Shallow embedding of the term-graph traversal core of src/src/heap_iter.rs:
  the stackful pre-order heap iterator (work list of location descriptors,
  mark/forwarding bits on cells, scoped cleanup on drop) and the post-order
  adapter. Machine integers are modelled as Nat; the heap and the machine
  stack are lists of cells; out-of-range indexing (a panic in the source) is
  modelled totally by List.getD / List.set, which leave the state unchanged
  out of range.
-/

namespace HeapIterModel

/-- Origin of a work-list location: the heap or the machine stack. -/
inductive HeapOrStackTag
  | Heap
  | Stack
  deriving DecidableEq

/-- Traversal tag of a work-list entry (IterStackLocTag in the source). -/
inductive IterStackLocTag
  | Iterable
  | Marked
  | PendingMark
  deriving DecidableEq

/-- A work-list location descriptor: index, traversal tag, origin
(IterStackLoc in the source; the u64 bit packing is abstracted). -/
structure IterStackLoc where
  value : Nat
  tag : IterStackLocTag
  heap_or_stack : HeapOrStackTag
  deriving DecidableEq

def IterStackLoc.iterable_loc (h : Nat) (hs : HeapOrStackTag) : IterStackLoc :=
  ⟨h, IterStackLocTag.Iterable, hs⟩

def IterStackLoc.mark_loc (h : Nat) (hs : HeapOrStackTag) : IterStackLoc :=
  ⟨h, IterStackLocTag.Marked, hs⟩

def IterStackLoc.pending_mark_loc (h : Nat) (hs : HeapOrStackTag) : IterStackLoc :=
  ⟨h, IterStackLocTag.PendingMark, hs⟩

def IterStackLoc.is_marked (l : IterStackLoc) : Bool :=
  match l.tag with
  | IterStackLocTag.Marked => true
  | _ => false

def IterStackLoc.is_pending_mark (l : IterStackLoc) : Bool :=
  match l.tag with
  | IterStackLocTag.PendingMark => true
  | _ => false

/-- The payload (tag and value) of a tagged heap cell, restricted to the
variants the iterator dispatches on. Atom names and partial-string segments
are atom-table indices abstracted as Nat. All variants not distinguished by
the dispatch in follow are leaves; Fixnum and EmptyList stand for them. -/
inductive CellPayload
  | Str (h : Nat)
  | Lis (h : Nat)
  | Var (h : Nat)
  | AttrVar (h : Nat)
  | StackVar (s : Nat)
  | PStrLoc (h : Nat)
  | PStrOffset (h : Nat)
  | PStr (segment : Nat)
  | Atom (name : Nat) (arity : Nat)
  | Fixnum (n : Int)
  | EmptyList
  deriving DecidableEq

/-- A heap cell: payload plus the two metadata bits. -/
structure HeapCellValue where
  payload : CellPayload
  mark : Bool
  forwarding : Bool
  deriving DecidableEq

/-- A clean cell with the given payload (both metadata bits false). -/
def cell (p : CellPayload) : HeapCellValue := ⟨p, false, false⟩

/-- Default cell used by the total out-of-range read. -/
def defaultCell : HeapCellValue := ⟨CellPayload.EmptyList, false, false⟩

def HeapCellValue.set_mark_bit (c : HeapCellValue) (b : Bool) : HeapCellValue :=
  ⟨c.payload, b, c.forwarding⟩

def HeapCellValue.set_forwarding_bit (c : HeapCellValue) (b : Bool) : HeapCellValue :=
  ⟨c.payload, c.mark, b⟩

/-- The mutable state of StackfulPreOrderHeapIter: the borrowed heap and
machine stack, the work list (head of the list is the top of the Vec), and
the focus h. -/
structure IterState where
  heap : List HeapCellValue
  machine_stack : List HeapCellValue
  stack : List IterStackLoc
  h : IterStackLoc
  deriving DecidableEq

/-- Cell lookup by origin and index (total; default out of range). -/
def cellAt (s : IterState) (hs : HeapOrStackTag) (i : Nat) : HeapCellValue :=
  match hs with
  | HeapOrStackTag.Heap => s.heap.getD i defaultCell
  | HeapOrStackTag.Stack => s.machine_stack.getD i defaultCell

/-- read_cell from the source. -/
def IterState.read_cell (s : IterState) (loc : IterStackLoc) : HeapCellValue :=
  cellAt s loc.heap_or_stack loc.value

/-- Apply a cell transformation at a location (models a read_cell_mut write;
no-op out of range, where the source would panic). -/
def IterState.modify_cell (s : IterState) (loc : IterStackLoc)
    (f : HeapCellValue → HeapCellValue) : IterState :=
  match loc.heap_or_stack with
  | HeapOrStackTag.Heap =>
      ⟨s.heap.set loc.value (f (s.heap.getD loc.value defaultCell)),
       s.machine_stack, s.stack, s.h⟩
  | HeapOrStackTag.Stack =>
      ⟨s.heap,
       s.machine_stack.set loc.value (f (s.machine_stack.getD loc.value defaultCell)),
       s.stack, s.h⟩

def IterState.set_mark_at (s : IterState) (loc : IterStackLoc) (b : Bool) : IterState :=
  s.modify_cell loc (fun c => c.set_mark_bit b)

def IterState.set_forwarding_at (s : IterState) (loc : IterStackLoc) (b : Bool) : IterState :=
  s.modify_cell loc (fun c => c.set_forwarding_bit b)

def IterState.with_stack (s : IterState) (st : List IterStackLoc) : IterState :=
  ⟨s.heap, s.machine_stack, st, s.h⟩

def IterState.with_focus (s : IterState) (l : IterStackLoc) : IterState :=
  ⟨s.heap, s.machine_stack, s.stack, l⟩

/-- push_stack from the source. -/
def IterState.push_stack (s : IterState) (l : IterStackLoc) : IterState :=
  ⟨s.heap, s.machine_stack, l :: s.stack, s.h⟩

/-- Whether the cell at loc is a reference-kind cell whose referent's mark
bit is set (the condition tested by forward_if_referent_marked). -/
def referent_marked (s : IterState) (loc : IterStackLoc) : Bool :=
  match (s.read_cell loc).payload with
  | CellPayload.Str vh => (s.heap.getD vh defaultCell).mark
  | CellPayload.Lis vh => (s.heap.getD vh defaultCell).mark
  | CellPayload.AttrVar vh => (s.heap.getD vh defaultCell).mark
  | CellPayload.Var vh => (s.heap.getD vh defaultCell).mark
  | CellPayload.PStrLoc vh => (s.heap.getD vh defaultCell).mark
  | CellPayload.StackVar vs => (s.machine_stack.getD vs defaultCell).mark
  | _ => false

/-- forward_if_referent_marked from the source. -/
def IterState.forward_if_referent_marked (s : IterState) (loc : IterStackLoc) : IterState :=
  if referent_marked s loc then s.set_forwarding_at loc true else s

/-- push_if_unmarked from the source: if the cell at loc is unmarked, set its
mark bit and push an Iterable entry for the same index and origin. -/
def IterState.push_if_unmarked (s : IterState) (loc : IterStackLoc) : IterState :=
  if (s.read_cell loc).mark then s
  else (s.set_mark_at loc true).push_stack
    (IterStackLoc.iterable_loc loc.value loc.heap_or_stack)

/-- Result of one iteration of the while-let loop in follow: a yielded cell,
a continue, or exit with the work list empty. -/
inductive StepRes
  | yield (c : HeapCellValue) (s : IterState)
  | cont (s : IterState)
  | done (s : IterState)
  deriving DecidableEq

/-- One iteration of the while-let loop body of
StackfulPreOrderHeapIter::follow, translated arm by arm. -/
def IterState.step (s : IterState) : StepRes :=
  match s.stack with
  | [] => StepRes.done s
  | e :: rest =>
    if e.is_pending_mark then
      let s1 := (s.with_stack rest).push_if_unmarked e
      let s2 := s1.push_stack (IterStackLoc.mark_loc e.value e.heap_or_stack)
      let s3 := s2.forward_if_referent_marked e
      StepRes.cont s3
    else
      let s1 := (s.with_stack rest).with_focus e
      let c := s1.read_cell e
      if c.forwarding then
        StepRes.yield c (s1.set_forwarding_at e false)
      else if c.mark && !e.is_marked then
        StepRes.cont (s1.set_mark_at e false)
      else
        match c.payload with
        | CellPayload.Str vh =>
          let loc := IterStackLoc.iterable_loc vh HeapOrStackTag.Heap
          let s2 := s1.push_if_unmarked loc
          StepRes.cont (s2.push_stack (IterStackLoc.mark_loc vh HeapOrStackTag.Heap))
        | CellPayload.PStrLoc vh =>
          let loc := IterStackLoc.iterable_loc vh HeapOrStackTag.Heap
          let s2 := s1.push_if_unmarked loc
          StepRes.cont (s2.push_stack (IterStackLoc.mark_loc vh HeapOrStackTag.Heap))
        | CellPayload.Lis vh =>
          let loc := IterStackLoc.iterable_loc vh HeapOrStackTag.Heap
          let s2 := s1.push_if_unmarked loc
          let s3 := s2.push_stack (IterStackLoc.pending_mark_loc (vh + 1) HeapOrStackTag.Heap)
          let s4 := s3.push_stack (IterStackLoc.mark_loc vh HeapOrStackTag.Heap)
          let s5 := s4.forward_if_referent_marked loc
          StepRes.yield (s5.read_cell e) s5
        | CellPayload.AttrVar vh =>
          let loc := IterStackLoc.iterable_loc vh HeapOrStackTag.Heap
          let s2 := s1.push_if_unmarked loc
          let s3 := s2.push_stack (IterStackLoc.mark_loc vh HeapOrStackTag.Heap)
          StepRes.cont (s3.forward_if_referent_marked loc)
        | CellPayload.Var vh =>
          let loc := IterStackLoc.iterable_loc vh HeapOrStackTag.Heap
          let s2 := s1.push_if_unmarked loc
          let s3 := s2.push_stack (IterStackLoc.mark_loc vh HeapOrStackTag.Heap)
          StepRes.cont (s3.forward_if_referent_marked loc)
        | CellPayload.StackVar vs =>
          let loc := IterStackLoc.iterable_loc vs HeapOrStackTag.Stack
          let s2 := s1.push_if_unmarked loc
          let s3 := s2.push_stack (IterStackLoc.mark_loc vs HeapOrStackTag.Stack)
          StepRes.cont (s3.forward_if_referent_marked loc)
        | CellPayload.PStrOffset offset =>
          let s2 := s1.push_if_unmarked (IterStackLoc.iterable_loc offset HeapOrStackTag.Heap)
          let s3 := s2.push_stack (IterStackLoc.iterable_loc (e.value + 1) HeapOrStackTag.Heap)
          StepRes.yield (s3.read_cell e) s3
        | CellPayload.PStr _ =>
          let tail_loc := IterStackLoc.iterable_loc (e.value + 1) HeapOrStackTag.Heap
          let s2 := s1.push_if_unmarked (IterStackLoc.iterable_loc e.value HeapOrStackTag.Heap)
          let s3 := s2.push_stack tail_loc
          let s4 := s3.forward_if_referent_marked tail_loc
          StepRes.yield (s4.read_cell e) s4
        | CellPayload.Atom _ arity =>
          let l := e.value
          let s2 := ((List.range' (l + 2) (arity - 1)).reverse).foldl
            (fun st i => st.push_stack (IterStackLoc.pending_mark_loc i HeapOrStackTag.Heap)) s1
          if 0 < arity then
            let first_arg_loc := IterStackLoc.iterable_loc (l + 1) HeapOrStackTag.Heap
            let s3 := s2.push_if_unmarked first_arg_loc
            let s4 := s3.push_stack (IterStackLoc.mark_loc (l + 1) HeapOrStackTag.Heap)
            let s5 := s4.forward_if_referent_marked first_arg_loc
            StepRes.yield (s5.read_cell e) s5
          else
            StepRes.yield (s2.read_cell e) s2
        | CellPayload.Fixnum _ => StepRes.yield c s1
        | CellPayload.EmptyList => StepRes.yield c s1

/-- follow with explicit fuel: none means the fuel ran out before the call
returned; some (none, s) means the work list emptied (next returns nothing);
some (some c, s) means a cell was yielded. -/
def followN : Nat → IterState → Option (Option HeapCellValue × IterState)
  | 0, _ => none
  | fuel + 1, s =>
    match s.step with
    | StepRes.done s1 => some (none, s1)
    | StepRes.yield c s1 => some (some c, s1)
    | StepRes.cont s1 => followN fuel s1

/-- Run the iterator to exhaustion, collecting every yielded cell, with
fuel; none if the fuel ran out first. -/
def runIter : Nat → IterState → Option (List HeapCellValue × IterState)
  | 0, _ => none
  | fuel + 1, s =>
    match s.step with
    | StepRes.done s1 => some ([], s1)
    | StepRes.cont s1 => runIter fuel s1
    | StepRes.yield c s1 =>
      match runIter fuel s1 with
      | some (cs, sf) => some (c :: cs, sf)
      | none => none

/-- The yielded cells of a full run (bits included), with fuel. -/
def runCells (fuel : Nat) (s : IterState) : Option (List HeapCellValue) :=
  match runIter fuel s with
  | some (cs, _) => some cs
  | none => none

/-- The yielded payloads of a full run (mark and forwarding bits masked). -/
def runPayloads (fuel : Nat) (s : IterState) : Option (List CellPayload) :=
  (runCells fuel s).map (fun cs => cs.map HeapCellValue.payload)

/-- StackfulPreOrderHeapIter::new: append the root cell to the heap and seed
the work list with a single Iterable entry for its location. -/
def stackful_preorder_iter (heap ms : List HeapCellValue) (c : HeapCellValue) : IterState :=
  let h0 := IterStackLoc.iterable_loc heap.length HeapOrStackTag.Heap
  ⟨heap ++ [c], ms, [h0], h0⟩

/-- The cleanup loop of impl Drop for StackfulPreOrderHeapIter: pop every
work-list entry, clearing the forwarding and mark bits of its referent. -/
def dropCells : List IterStackLoc → IterState → IterState
  | [], s => s
  | e :: rest, s => dropCells rest ((s.set_forwarding_at e false).set_mark_at e false)

/-- Drop for StackfulPreOrderHeapIter: run the cleanup loop over the whole
work list, then pop the sentinel cell from the end of the heap. -/
def dropIter (s : IterState) : IterState :=
  let s1 := dropCells s.stack (s.with_stack [])
  ⟨s1.heap.dropLast, s1.machine_stack, [], s1.h⟩

/-- All cells of a container have both metadata bits clear. -/
def CleanCells (cs : List HeapCellValue) : Prop :=
  ∀ c ∈ cs, c.mark = false ∧ c.forwarding = false

instance : DecidablePred CleanCells := fun cs =>
  inferInstanceAs (Decidable (∀ c ∈ cs, c.mark = false ∧ c.forwarding = false))

/-- One transition of the follow loop (a continue or a yield). -/
def StepRel (s s1 : IterState) : Prop :=
  s.step = StepRes.cont s1 ∨ ∃ c, s.step = StepRes.yield c s1

/-- Reachability along follow-loop transitions; every state observable after
any number of next calls on the iterator is reachable in this sense. -/
def Reaches (s s1 : IterState) : Prop :=
  Relation.ReflTransGen StepRel s s1

/-- State of the PostOrderIterator adapter over the stackful base iterator:
focus, base iterator state, base_iter_valid, and the parent stack of frames
(number of children left, parent cell, parent focus). -/
structure PostOrderState where
  focus : IterStackLoc
  base : IterState
  base_iter_valid : Bool
  parent_stack : List (Nat × HeapCellValue × IterStackLoc)

/-- PostOrderIterator::next, with fuel shared between the outer loop and the
inner base-iterator calls: none means the fuel ran out. -/
def postNext : Nat → PostOrderState → Option (Option HeapCellValue × PostOrderState)
  | 0, _ => none
  | fuel + 1, s =>
    let afterParent : PostOrderState ⊕ (Option HeapCellValue × PostOrderState) :=
      match s.parent_stack with
      | (child_count, node, fc) :: pt =>
        if child_count = 0 then
          Sum.inr (some node, ⟨fc, s.base, s.base_iter_valid, pt⟩)
        else
          Sum.inl ⟨s.focus, s.base, s.base_iter_valid, (child_count - 1, node, fc) :: pt⟩
      | [] => Sum.inl s
    match afterParent with
    | Sum.inr r => some r
    | Sum.inl s1 =>
      if s1.base_iter_valid then
        match followN (fuel + 1) s1.base with
        | none => none
        | some (some item, base1) =>
          let fc := base1.h
          match item.payload with
          | CellPayload.Atom _ arity =>
            postNext fuel ⟨s1.focus, base1, true, (arity, item, fc) :: s1.parent_stack⟩
          | CellPayload.Lis _ =>
            postNext fuel ⟨s1.focus, base1, true, (2, item, fc) :: s1.parent_stack⟩
          | CellPayload.PStr _ =>
            postNext fuel ⟨s1.focus, base1, true, (1, item, fc) :: s1.parent_stack⟩
          | CellPayload.PStrOffset _ =>
            postNext fuel ⟨s1.focus, base1, true, (1, item, fc) :: s1.parent_stack⟩
          | _ => some (some item, ⟨fc, base1, true, s1.parent_stack⟩)
        | some (none, base1) =>
          let s2 : PostOrderState := ⟨s1.focus, base1, false, s1.parent_stack⟩
          if s2.parent_stack.isEmpty then some (none, s2) else postNext fuel s2
      else
        if s1.parent_stack.isEmpty then some (none, s1) else postNext fuel s1

/-- Run the post-order adapter to exhaustion, collecting yields, with fuel. -/
def postRun : Nat → PostOrderState → Option (List HeapCellValue)
  | 0, _ => none
  | fuel + 1, s =>
    match postNext (fuel + 1) s with
    | none => none
    | some (none, _) => some []
    | some (some c, s1) =>
      match postRun fuel s1 with
      | some cs => some (c :: cs)
      | none => none

/-- The yielded payloads of a full post-order run. -/
def postRunPayloads (fuel : Nat) (s : PostOrderState) : Option (List CellPayload) :=
  (postRun fuel s).map (fun cs => cs.map HeapCellValue.payload)

/-- stackful_post_order_iter: wrap a fresh stackful pre-order iterator in the
post-order adapter (PostOrderIterator::new seeds focus with iterable_loc 0
Heap, an empty parent stack, and base_iter_valid = true). -/
def stackful_post_order_iter (heap ms : List HeapCellValue) (c : HeapCellValue) : PostOrderState :=
  ⟨IterStackLoc.iterable_loc 0 HeapOrStackTag.Heap, stackful_preorder_iter heap ms c, true, []⟩

/-- PostOrderIterator::direct_subterm_of_str: true when the top parent frame
holds a structure header and idx_loc lies in its argument span. -/
def direct_subterm_of_str (s : PostOrderState) (idx_loc : Nat) : Bool :=
  match s.parent_stack with
  | (_, item, fc) :: _ =>
    match item.payload with
    | CellPayload.Atom _ arity => decide (fc.value + arity ≥ idx_loc) && decide (fc.value < idx_loc)
    | _ => false
  | [] => false

/-- Atom-table index of the test atom f. -/
def fSym : Nat := 0

/-- Atom-table index of the test atom a. -/
def aSym : Nat := 1

/-- Atom-table index of the test atom b. -/
def bSym : Nat := 2

/-- The heap for f(a, b): [Atom(f,2), Atom(a,0), Atom(b,0)]. -/
def c3heap : List HeapCellValue :=
  [cell (CellPayload.Atom fSym 2), cell (CellPayload.Atom aSym 0), cell (CellPayload.Atom bSym 0)]

/-- The heap for the list [a, b]: [Lis(1), a, Lis(3), b, EmptyList]. -/
def c4heap : List HeapCellValue :=
  [cell (CellPayload.Lis 1), cell (CellPayload.Atom aSym 0), cell (CellPayload.Lis 3),
   cell (CellPayload.Atom bSym 0), cell CellPayload.EmptyList]

/-- The cyclic list [a, b | _] with the tail variable bound back to the head:
c4heap with heap[4] replaced by heap_loc(0). -/
def c4cyc : List HeapCellValue :=
  [cell (CellPayload.Lis 1), cell (CellPayload.Atom aSym 0), cell (CellPayload.Lis 3),
   cell (CellPayload.Atom bSym 0), cell (CellPayload.Var 0)]

/-- The cyclic-list heap for L = [L|L]: [Lis(1), Lis(1), Lis(1)]. -/
def c8heap : List HeapCellValue :=
  [cell (CellPayload.Lis 1), cell (CellPayload.Lis 1), cell (CellPayload.Lis 1)]

/-- Iterator over the empty heap rooted at the malformed reference Str(0):
the appended root cell is a Str cell pointing at itself. -/
def c2_s0 : IterState := stackful_preorder_iter [] [] (cell (CellPayload.Str 0))

/-- The state after the first follow-loop iteration of c2_s0. -/
def c2_mid : IterState :=
  ⟨[⟨CellPayload.Str 0, true, false⟩], [],
   [IterStackLoc.mark_loc 0 HeapOrStackTag.Heap, IterStackLoc.iterable_loc 0 HeapOrStackTag.Heap],
   IterStackLoc.iterable_loc 0 HeapOrStackTag.Heap⟩

/-- The fixed point of the follow loop reached from c2_s0: popping the
Marked entry re-dispatches the marked Str cell, which re-pushes the same
Marked entry. -/
def c2_loop : IterState :=
  ⟨[⟨CellPayload.Str 0, true, false⟩], [],
   [IterStackLoc.mark_loc 0 HeapOrStackTag.Heap, IterStackLoc.iterable_loc 0 HeapOrStackTag.Heap],
   IterStackLoc.mark_loc 0 HeapOrStackTag.Heap⟩

/-- Heap for the C6 counterexample: f(X) where the argument cell at index 1
is Str(0), pointing back at the header. -/
def c6heap : List HeapCellValue :=
  [cell (CellPayload.Atom fSym 1), cell (CellPayload.Str 0)]

/-- Iterator over c6heap rooted at heap_loc(1). -/
def c6_s0 : IterState := stackful_preorder_iter c6heap [] (cell (CellPayload.Var 1))

/-- c6_s0 after one follow-loop iteration (the root Var dispatch). -/
def c6_s1 : IterState :=
  ⟨[cell (CellPayload.Atom fSym 1), ⟨CellPayload.Str 0, true, false⟩, cell (CellPayload.Var 1)], [],
   [IterStackLoc.mark_loc 1 HeapOrStackTag.Heap, IterStackLoc.iterable_loc 1 HeapOrStackTag.Heap],
   IterStackLoc.iterable_loc 2 HeapOrStackTag.Heap⟩

/-- c6_s1 after one more iteration (the Str dispatch); the next pop
dispatches the structure header Atom(f,1) at position 0 for the first time,
while its first argument cell at position 1 is already marked. -/
def c6_s2 : IterState :=
  ⟨[⟨CellPayload.Atom fSym 1, true, false⟩, ⟨CellPayload.Str 0, true, false⟩,
    cell (CellPayload.Var 1)], [],
   [IterStackLoc.mark_loc 0 HeapOrStackTag.Heap, IterStackLoc.iterable_loc 0 HeapOrStackTag.Heap,
    IterStackLoc.iterable_loc 1 HeapOrStackTag.Heap],
   IterStackLoc.mark_loc 1 HeapOrStackTag.Heap⟩

/-- The state produced by the Atom(f,1) dispatch from c6_s2: only a Marked
entry for the first argument is pushed (no Iterable entry, since the
argument cell was already marked), and its forwarding bit is armed. -/
def c6_s3 : IterState :=
  ⟨[⟨CellPayload.Atom fSym 1, true, false⟩, ⟨CellPayload.Str 0, true, true⟩,
    cell (CellPayload.Var 1)], [],
   [IterStackLoc.mark_loc 1 HeapOrStackTag.Heap, IterStackLoc.iterable_loc 0 HeapOrStackTag.Heap,
    IterStackLoc.iterable_loc 1 HeapOrStackTag.Heap],
   IterStackLoc.mark_loc 0 HeapOrStackTag.Heap⟩

/-- State after the first follow-loop iteration on the f(a,b) heap: the top
of the work list is the Marked entry for the structure header at 0. -/
def c7_s1 : IterState :=
  ⟨[⟨CellPayload.Atom fSym 2, true, false⟩, cell (CellPayload.Atom aSym 0),
    cell (CellPayload.Atom bSym 0), cell (CellPayload.Str 0)], [],
   [IterStackLoc.mark_loc 0 HeapOrStackTag.Heap, IterStackLoc.iterable_loc 0 HeapOrStackTag.Heap],
   IterStackLoc.iterable_loc 3 HeapOrStackTag.Heap⟩

/-- The state produced by popping the Marked entry of c7_s1: the header is
yielded and its mark bit stays set. -/
def c7_s2 : IterState :=
  ⟨[⟨CellPayload.Atom fSym 2, true, false⟩, ⟨CellPayload.Atom aSym 0, true, false⟩,
    cell (CellPayload.Atom bSym 0), cell (CellPayload.Str 0)], [],
   [IterStackLoc.mark_loc 1 HeapOrStackTag.Heap, IterStackLoc.iterable_loc 1 HeapOrStackTag.Heap,
    IterStackLoc.pending_mark_loc 2 HeapOrStackTag.Heap,
    IterStackLoc.iterable_loc 0 HeapOrStackTag.Heap],
   IterStackLoc.mark_loc 0 HeapOrStackTag.Heap⟩

/-- A state whose work-list top is an Iterable entry for a marked,
unforwarded cell (used to instantiate the amended C7 statement). -/
def c7_wit_state : IterState :=
  ⟨[⟨CellPayload.Atom aSym 0, true, false⟩], [],
   [IterStackLoc.iterable_loc 0 HeapOrStackTag.Heap],
   IterStackLoc.iterable_loc 0 HeapOrStackTag.Heap⟩

/-- A post-order adapter state with an open structure frame f/2 recorded at
focus position 0 (used to instantiate the C9 statement). -/
def c9_wit_state : PostOrderState :=
  ⟨IterStackLoc.iterable_loc 0 HeapOrStackTag.Heap,
   stackful_preorder_iter c3heap [] (cell (CellPayload.Str 0)), true,
   [(2, cell (CellPayload.Atom fSym 2), IterStackLoc.iterable_loc 0 HeapOrStackTag.Heap)]⟩

/-- A heap that is dirty before construction: its only cell already has the
mark bit set. -/
def c1_dirty_heap : List HeapCellValue := [⟨CellPayload.Atom aSym 0, true, false⟩]

/-- The invariant tying a live iterator state to the state at construction:
the heap payloads and length never change, every marked heap cell has an
Iterable work-list entry (its scheduled cleanup), and a forwarded heap cell
is always consumed by the entry now at the top of the work list. -/
structure Inv (init : IterState) (s : IterState) : Prop where
  heap_len : s.heap.length = init.heap.length
  heap_payload : ∀ i, (s.heap.getD i defaultCell).payload = (init.heap.getD i defaultCell).payload
  mark_entry : ∀ i, (s.heap.getD i defaultCell).mark = true →
    IterStackLoc.mk i IterStackLocTag.Iterable HeapOrStackTag.Heap ∈ s.stack
  fwd_entry : ∀ i, (s.heap.getD i defaultCell).forwarding = true →
    ∃ e rest, s.stack = e :: rest ∧ e.value = i ∧ e.heap_or_stack = HeapOrStackTag.Heap ∧
      e.tag ≠ IterStackLocTag.PendingMark ∧
      (e.tag = IterStackLocTag.Iterable → (s.heap.getD i defaultCell).mark = true →
        IterStackLoc.mk i IterStackLocTag.Iterable HeapOrStackTag.Heap ∈ rest)

/-- Container length by origin. -/
def lenAt (s : IterState) (hs : HeapOrStackTag) : Nat :=
  match hs with
  | HeapOrStackTag.Heap => s.heap.length
  | HeapOrStackTag.Stack => s.machine_stack.length

/-- One state's work list extends another's by a fixed suffix B below it,
with identical heap, machine stack and focus. -/
def StackExt (B : List IterStackLoc) (s t : IterState) : Prop :=
  t.heap = s.heap ∧ t.machine_stack = s.machine_stack ∧ t.h = s.h ∧ t.stack = s.stack ++ B

/-- Segment-wise execution of the follow loop: the work list is cut into
consecutive segments, each run to completion by runIter on a state holding
only that segment, threading the heap, the machine stack and the focus from
one segment to the next; the yield list of each segment is collected. -/
inductive SegRuns : List HeapCellValue → List HeapCellValue → IterStackLoc →
    List (List IterStackLoc) → List (List HeapCellValue) → IterState → Prop
  | nil (H MS : List HeapCellValue) (h0 : IterStackLoc) :
      SegRuns H MS h0 [] [] ⟨H, MS, [], h0⟩
  | cons (H MS : List HeapCellValue) (h0 : IterStackLoc) (A : List IterStackLoc)
      (segs : List (List IterStackLoc)) (ys : List HeapCellValue)
      (yss : List (List HeapCellValue)) (f : Nat) (t sf : IterState) :
      runIter f ⟨H, MS, A, h0⟩ = some (ys, t) →
      SegRuns t.heap t.machine_stack t.h segs yss sf →
      SegRuns H MS h0 (A :: segs) (ys :: yss) sf

theorem getD_set_ne {α : Type} (l : List α) (i j : Nat) (x d : α) (h : i ≠ j) :
    (l.set i x).getD j d = l.getD j d := by
  simp [List.getD, List.getElem?_set_ne h]

theorem getD_set_self {α : Type} (l : List α) (i : Nat) (x d : α) (h : i < l.length) :
    (l.set i x).getD i d = x := by
  simp [List.getD, List.getElem?_set_eq_of_lt x h]

theorem getD_of_length_le {α : Type} (l : List α) (i : Nat) (d : α) (h : l.length ≤ i) :
    l.getD i d = d := by
  simp [List.getD, List.getElem?_eq_none h]

theorem getD_append_left {α : Type} (l m : List α) (i : Nat) (d : α) (h : i < l.length) :
    (l ++ m).getD i d = l.getD i d := by
  simp [List.getD, List.getElem?_append, h]

theorem getD_dropLast {α : Type} (l : List α) (i : Nat) (d : α) (h : i < l.length - 1) :
    l.dropLast.getD i d = l.getD i d := by
  have h2 : i < l.length := lt_of_lt_of_le h (Nat.sub_le _ _)
  simp [List.getD, List.dropLast_eq_take, List.getElem?_take, h, List.getElem?_eq_getElem h2]

theorem cellAt_with_stack (s : IterState) (st : List IterStackLoc) (hs : HeapOrStackTag) (i : Nat) :
    cellAt (s.with_stack st) hs i = cellAt s hs i := by
  cases hs <;> rfl

theorem cellAt_with_focus (s : IterState) (l : IterStackLoc) (hs : HeapOrStackTag) (i : Nat) :
    cellAt (s.with_focus l) hs i = cellAt s hs i := by
  cases hs <;> rfl

theorem cellAt_push_stack (s : IterState) (l : IterStackLoc) (hs : HeapOrStackTag) (i : Nat) :
    cellAt (s.push_stack l) hs i = cellAt s hs i := by
  cases hs <;> rfl

theorem read_cell_eq_cellAt (s : IterState) (loc : IterStackLoc) :
    s.read_cell loc = cellAt s loc.heap_or_stack loc.value := rfl

theorem modify_cell_stack (s : IterState) (loc : IterStackLoc) (f : HeapCellValue → HeapCellValue) :
    (s.modify_cell loc f).stack = s.stack := by
  unfold IterState.modify_cell
  cases loc.heap_or_stack <;> rfl

theorem modify_cell_h (s : IterState) (loc : IterStackLoc) (f : HeapCellValue → HeapCellValue) :
    (s.modify_cell loc f).h = s.h := by
  unfold IterState.modify_cell
  cases loc.heap_or_stack <;> rfl

theorem lenAt_modify_cell (s : IterState) (loc : IterStackLoc)
    (f : HeapCellValue → HeapCellValue) (hs : HeapOrStackTag) :
    lenAt (s.modify_cell loc f) hs = lenAt s hs := by
  unfold IterState.modify_cell lenAt
  cases loc.heap_or_stack <;> cases hs <;> simp

theorem cellAt_modify_cell (s : IterState) (loc : IterStackLoc)
    (f : HeapCellValue → HeapCellValue) (hs : HeapOrStackTag) (i : Nat) :
    cellAt (s.modify_cell loc f) hs i =
      if loc.heap_or_stack = hs ∧ loc.value = i ∧ i < lenAt s hs then f (cellAt s hs i)
      else cellAt s hs i := by
  unfold IterState.modify_cell cellAt lenAt
  cases ho : loc.heap_or_stack <;> cases hs <;> simp only []
  case Heap.Heap =>
    by_cases hv : loc.value = i
    · subst hv
      by_cases hlt : loc.value < s.heap.length
      · rw [getD_set_self _ _ _ _ hlt]
        simp [hlt]
      · rw [List.set_eq_of_length_le (Nat.le_of_not_lt hlt)]
        simp [hlt]
    · rw [getD_set_ne _ _ _ _ _ hv]
      simp [hv]
  case Heap.Stack => simp
  case Stack.Heap => simp
  case Stack.Stack =>
    by_cases hv : loc.value = i
    · subst hv
      by_cases hlt : loc.value < s.machine_stack.length
      · rw [getD_set_self _ _ _ _ hlt]
        simp [hlt]
      · rw [List.set_eq_of_length_le (Nat.le_of_not_lt hlt)]
        simp [hlt]
    · rw [getD_set_ne _ _ _ _ _ hv]
      simp [hv]

theorem foldl_push_stack (f : Nat → IterStackLoc) (L : List Nat) (s : IterState) :
    L.foldl (fun st i => st.push_stack (f i)) s = s.with_stack (L.reverse.map f ++ s.stack) := by
  induction L generalizing s with
  | nil => rfl
  | cons a t ih =>
    simp only [List.foldl_cons, ih, List.reverse_cons, List.map_append]
    simp [IterState.with_stack, IterState.push_stack]

theorem lenAt_with_stack (s : IterState) (st : List IterStackLoc) (hs : HeapOrStackTag) :
    lenAt (s.with_stack st) hs = lenAt s hs := by
  cases hs <;> rfl

theorem lenAt_with_focus (s : IterState) (l : IterStackLoc) (hs : HeapOrStackTag) :
    lenAt (s.with_focus l) hs = lenAt s hs := by
  cases hs <;> rfl

theorem lenAt_push_stack (s : IterState) (l : IterStackLoc) (hs : HeapOrStackTag) :
    lenAt (s.push_stack l) hs = lenAt s hs := by
  cases hs <;> rfl

theorem cellAt_of_length_le (s : IterState) (hs : HeapOrStackTag) (i : Nat)
    (h : lenAt s hs ≤ i) : cellAt s hs i = defaultCell := by
  cases hs
  · exact getD_of_length_le _ _ _ h
  · exact getD_of_length_le _ _ _ h

theorem mark_true_lt (s : IterState) (hs : HeapOrStackTag) (i : Nat)
    (h : (cellAt s hs i).mark = true) : i < lenAt s hs := by
  by_contra hge
  rw [cellAt_of_length_le s hs i (Nat.le_of_not_lt hge)] at h
  exact absurd h (by decide)

theorem fwd_true_lt (s : IterState) (hs : HeapOrStackTag) (i : Nat)
    (h : (cellAt s hs i).forwarding = true) : i < lenAt s hs := by
  by_contra hge
  rw [cellAt_of_length_le s hs i (Nat.le_of_not_lt hge)] at h
  exact absurd h (by decide)

theorem cellAt_modify_payload (s : IterState) (loc : IterStackLoc)
    (f : HeapCellValue → HeapCellValue) (hf : ∀ c, (f c).payload = c.payload)
    (hs : HeapOrStackTag) (i : Nat) :
    (cellAt (s.modify_cell loc f) hs i).payload = (cellAt s hs i).payload := by
  rw [cellAt_modify_cell]
  split
  · rw [hf]
  · rfl

theorem cellAt_modify_mark (s : IterState) (loc : IterStackLoc)
    (f : HeapCellValue → HeapCellValue) (hf : ∀ c, (f c).mark = c.mark)
    (hs : HeapOrStackTag) (i : Nat) :
    (cellAt (s.modify_cell loc f) hs i).mark = (cellAt s hs i).mark := by
  rw [cellAt_modify_cell]
  split
  · rw [hf]
  · rfl

theorem cellAt_modify_fwd (s : IterState) (loc : IterStackLoc)
    (f : HeapCellValue → HeapCellValue) (hf : ∀ c, (f c).forwarding = c.forwarding)
    (hs : HeapOrStackTag) (i : Nat) :
    (cellAt (s.modify_cell loc f) hs i).forwarding = (cellAt s hs i).forwarding := by
  rw [cellAt_modify_cell]
  split
  · rw [hf]
  · rfl

theorem cellAt_set_mark_payload (s : IterState) (loc : IterStackLoc) (b : Bool)
    (hs : HeapOrStackTag) (i : Nat) :
    (cellAt (s.set_mark_at loc b) hs i).payload = (cellAt s hs i).payload :=
  cellAt_modify_payload s loc (fun c => c.set_mark_bit b) (fun _ => rfl) hs i

theorem cellAt_set_fwd_payload (s : IterState) (loc : IterStackLoc) (b : Bool)
    (hs : HeapOrStackTag) (i : Nat) :
    (cellAt (s.set_forwarding_at loc b) hs i).payload = (cellAt s hs i).payload :=
  cellAt_modify_payload s loc (fun c => c.set_forwarding_bit b) (fun _ => rfl) hs i

theorem cellAt_set_mark_fwd (s : IterState) (loc : IterStackLoc) (b : Bool)
    (hs : HeapOrStackTag) (i : Nat) :
    (cellAt (s.set_mark_at loc b) hs i).forwarding = (cellAt s hs i).forwarding :=
  cellAt_modify_fwd s loc (fun c => c.set_mark_bit b) (fun _ => rfl) hs i

theorem cellAt_set_fwd_mark (s : IterState) (loc : IterStackLoc) (b : Bool)
    (hs : HeapOrStackTag) (i : Nat) :
    (cellAt (s.set_forwarding_at loc b) hs i).mark = (cellAt s hs i).mark :=
  cellAt_modify_mark s loc (fun c => c.set_forwarding_bit b) (fun _ => rfl) hs i

theorem set_mark_at_stack (s : IterState) (loc : IterStackLoc) (b : Bool) :
    (s.set_mark_at loc b).stack = s.stack :=
  modify_cell_stack s loc (fun c => c.set_mark_bit b)

theorem set_fwd_at_stack (s : IterState) (loc : IterStackLoc) (b : Bool) :
    (s.set_forwarding_at loc b).stack = s.stack :=
  modify_cell_stack s loc (fun c => c.set_forwarding_bit b)

theorem fc_stack (s : IterState) (loc : IterStackLoc) :
    (s.forward_if_referent_marked loc).stack = s.stack := by
  unfold IterState.forward_if_referent_marked
  split
  · exact set_fwd_at_stack s loc true
  · rfl

theorem cellAt_fc_payload (s : IterState) (loc : IterStackLoc) (hs : HeapOrStackTag) (i : Nat) :
    (cellAt (s.forward_if_referent_marked loc) hs i).payload = (cellAt s hs i).payload := by
  unfold IterState.forward_if_referent_marked
  split
  · exact cellAt_set_fwd_payload s loc true hs i
  · rfl

theorem cellAt_fc_mark (s : IterState) (loc : IterStackLoc) (hs : HeapOrStackTag) (i : Nat) :
    (cellAt (s.forward_if_referent_marked loc) hs i).mark = (cellAt s hs i).mark := by
  unfold IterState.forward_if_referent_marked
  split
  · exact cellAt_set_fwd_mark s loc true hs i
  · rfl

theorem lenAt_set_mark (s : IterState) (loc : IterStackLoc) (b : Bool) (hs : HeapOrStackTag) :
    lenAt (s.set_mark_at loc b) hs = lenAt s hs :=
  lenAt_modify_cell s loc (fun c => c.set_mark_bit b) hs

theorem lenAt_set_fwd (s : IterState) (loc : IterStackLoc) (b : Bool) (hs : HeapOrStackTag) :
    lenAt (s.set_forwarding_at loc b) hs = lenAt s hs :=
  lenAt_modify_cell s loc (fun c => c.set_forwarding_bit b) hs

theorem lenAt_fc (s : IterState) (loc : IterStackLoc) (hs : HeapOrStackTag) :
    lenAt (s.forward_if_referent_marked loc) hs = lenAt s hs := by
  unfold IterState.forward_if_referent_marked
  split
  · exact lenAt_set_fwd s loc true hs
  · rfl

theorem followN_succ (n : Nat) (s : IterState) :
    followN (n + 1) s =
      match s.step with
      | StepRes.done s1 => some (none, s1)
      | StepRes.yield c s1 => some (some c, s1)
      | StepRes.cont s1 => followN n s1 := rfl

/-- C3: over the heap [Atom(f,2), Atom(a,0), Atom(b,0)] with root Str(0),
the stackful pre-order iterator yields exactly Atom(f,2), Atom(a,0),
Atom(b,0) and then ends, and the post-order iterator over the same heap and
root yields exactly Atom(a,0), Atom(b,0), Atom(f,2) and then ends, payloads
compared with the mark and forwarding bits masked. -/
theorem c3_preorder_postorder_streams :
    runPayloads 64 (stackful_preorder_iter c3heap [] (cell (CellPayload.Str 0))) =
      some [CellPayload.Atom fSym 2, CellPayload.Atom aSym 0, CellPayload.Atom bSym 0] ∧
    postRunPayloads 64 (stackful_post_order_iter c3heap [] (cell (CellPayload.Str 0))) =
      some [CellPayload.Atom aSym 0, CellPayload.Atom bSym 0, CellPayload.Atom fSym 2] := by
  constructor
  · decide
  · decide

/-- C4: over the heap [Lis(1), a, Lis(3), b, EmptyList] with root
heap_loc(0) the pre-order iterator yields exactly Lis(1), a, Lis(3), b,
EmptyList in that order and then ends; on the cyclic variant with heap[4] =
heap_loc(0) it yields Lis(1), a, Lis(3), b, heap_loc(0), where the final
yielded cell carries its forwarding bit at yield time. -/
theorem c4_list_streams :
    runCells 64 (stackful_preorder_iter c4heap [] (cell (CellPayload.Var 0))) =
      some [⟨CellPayload.Lis 1, true, false⟩, ⟨CellPayload.Atom aSym 0, true, false⟩,
            ⟨CellPayload.Lis 3, true, false⟩, ⟨CellPayload.Atom bSym 0, true, false⟩,
            ⟨CellPayload.EmptyList, true, false⟩] ∧
    runCells 64 (stackful_preorder_iter c4cyc [] (cell (CellPayload.Var 0))) =
      some [⟨CellPayload.Lis 1, true, false⟩, ⟨CellPayload.Atom aSym 0, true, false⟩,
            ⟨CellPayload.Lis 3, true, false⟩, ⟨CellPayload.Atom bSym 0, true, false⟩,
            ⟨CellPayload.Var 0, true, true⟩] := by
  constructor
  · decide
  · decide

/-- C5: over the heap [heap_loc(1), heap_loc(0)] with root heap_loc(0), the
pre-order iterator yields exactly one cell, heap_loc(0) with its forwarding
bit set at yield time, and then ends. -/
theorem c5_mutual_vars_stream :
    runCells 64 (stackful_preorder_iter
        [cell (CellPayload.Var 1), cell (CellPayload.Var 0)] [] (cell (CellPayload.Var 0))) =
      some [⟨CellPayload.Var 0, true, true⟩] := by
  decide

/-- C8 counterexample: over the cyclic-list heap [Lis(1), Lis(1), Lis(1)]
with root heap_loc(0), the stackful pre-order iterator does not yield the
four-cell stream Lis(1), Lis(1), Lis(1), Lis(1) the claim states (that
stream belongs to the stackless iterator, which lives outside this crate
file); the stackful stream has three cells. -/
theorem c8_stream_not_four_cells :
    runPayloads 64 (stackful_preorder_iter c8heap [] (cell (CellPayload.Var 0))) ≠
      some [CellPayload.Lis 1, CellPayload.Lis 1, CellPayload.Lis 1, CellPayload.Lis 1] := by
  decide

/-- C8 as amended: over the cyclic-list heap [Lis(1), Lis(1), Lis(1)] with
root heap_loc(0), the stackful pre-order iterator yields exactly three
cells, all with payload Lis(1): the first marked only, the second and third
with both the mark and forwarding bits set at yield time; then the
iteration ends. -/
theorem c8_cyclic_list_stream :
    runCells 64 (stackful_preorder_iter c8heap [] (cell (CellPayload.Var 0))) =
      some [⟨CellPayload.Lis 1, true, false⟩, ⟨CellPayload.Lis 1, true, true⟩,
            ⟨CellPayload.Lis 1, true, true⟩] := by
  decide

/-- C10: over the heap whose only cell is the self-referencing variable
heap_loc(0), with root heap_loc(0), the pre-order iterator yields exactly
one cell, and the yielded copy carries both its forwarding bit and its mark
bit set to true. -/
theorem c10_self_var_stream :
    runCells 64 (stackful_preorder_iter
        [cell (CellPayload.Var 0)] [] (cell (CellPayload.Var 0))) =
      some [⟨CellPayload.Var 0, true, true⟩] := by
  decide

theorem c2_step_s0 : c2_s0.step = StepRes.cont c2_mid := by decide

theorem c2_step_mid : c2_mid.step = StepRes.cont c2_loop := by decide

theorem c2_loop_fixed : c2_loop.step = StepRes.cont c2_loop := by decide

theorem c2_loop_diverges : ∀ fuel, followN fuel c2_loop = none := by
  intro fuel
  induction fuel with
  | zero => rfl
  | succ n ih =>
    rw [followN_succ, c2_loop_fixed]
    exact ih

/-- C2 failing input: on the (malformed) input with empty heap, empty
machine stack and root cell Str(0) — so the appended root is a Str cell
referring to itself rather than to a structure header — next never returns:
for every fuel bound the follow loop neither yields a cell nor reports an
empty work list, because popping the Marked entry for the marked Str cell
re-pushes that same Marked entry forever. -/
theorem c2_next_never_returns : ∀ fuel, followN fuel c2_s0 = none := by
  intro fuel
  match fuel with
  | 0 => rfl
  | 1 =>
    rw [followN_succ, c2_step_s0]
    rfl
  | n + 2 =>
    rw [followN_succ, c2_step_s0]
    show followN (n + 1) c2_mid = none
    rw [followN_succ, c2_step_mid]
    exact c2_loop_diverges n

/-- C7 counterexample: on the f(a,b) heap with root Str(0), the state after
one follow-loop iteration has the Marked entry for location 0 on top of the
work list, and popping it yields the header cell Atom(f,2) and leaves the
mark bit of the cell at location 0 set — contradicting the claim that
popping a Marked entry clears the mark bit of its cell and yields nothing. -/
theorem c7_marked_pop_yields :
    (stackful_preorder_iter c3heap [] (cell (CellPayload.Str 0))).step = StepRes.cont c7_s1 ∧
    c7_s1.stack.head? = some (IterStackLoc.mark_loc 0 HeapOrStackTag.Heap) ∧
    c7_s1.step = StepRes.yield ⟨CellPayload.Atom fSym 2, true, false⟩ c7_s2 ∧
    (c7_s2.heap.getD 0 defaultCell).mark = true := by
  refine ⟨by decide, by decide, by decide, by decide⟩

/-- C7 as amended: it is the pop of an Iterable-tagged entry whose cell is
marked and not forwarded that clears the cell's mark bit and yields nothing
(the loop continues with the rest of the work list, every other cell
untouched); the pop of a Marked-tagged entry is the one that visits the
cell. -/
theorem c7_iterable_pop_clears_mark (s : IterState) (e : IterStackLoc)
    (rest : List IterStackLoc)
    (hstack : s.stack = e :: rest)
    (htag : e.tag = IterStackLocTag.Iterable)
    (hmark : (s.read_cell e).mark = true)
    (hfwd : (s.read_cell e).forwarding = false) :
    ∃ s1, s.step = StepRes.cont s1 ∧ s1.stack = rest ∧
      (s1.read_cell e).mark = false ∧
      ∀ hs i, ¬(e.heap_or_stack = hs ∧ e.value = i) → cellAt s1 hs i = cellAt s hs i := by
  have hpend : e.is_pending_mark = false := by
    unfold IterStackLoc.is_pending_mark
    rw [htag]
  have hmarked : e.is_marked = false := by
    unfold IterStackLoc.is_marked
    rw [htag]
  have hread : ((s.with_stack rest).with_focus e).read_cell e = s.read_cell e := by
    rw [read_cell_eq_cellAt, read_cell_eq_cellAt, cellAt_with_focus, cellAt_with_stack]
  refine ⟨(((s.with_stack rest).with_focus e).set_mark_at e false), ?_, ?_, ?_, ?_⟩
  · unfold IterState.step
    rw [hstack]
    simp only [hpend, Bool.false_eq_true, if_false, hread, hfwd, hmark, hmarked,
      Bool.not_false, Bool.and_true, if_true]
  · unfold IterState.set_mark_at
    rw [modify_cell_stack]
    rfl
  · have hlt : e.value < lenAt ((s.with_stack rest).with_focus e) e.heap_or_stack := by
      rw [lenAt_with_focus, lenAt_with_stack]
      exact mark_true_lt s e.heap_or_stack e.value hmark
    unfold IterState.set_mark_at
    rw [read_cell_eq_cellAt, cellAt_modify_cell, if_pos ⟨rfl, rfl, hlt⟩]
    rfl
  · intro hs i hne
    unfold IterState.set_mark_at
    rw [cellAt_modify_cell]
    rw [if_neg]
    · rw [cellAt_with_focus, cellAt_with_stack]
    · intro hcon
      exact hne ⟨hcon.1, hcon.2.1⟩

/-- Witness for the amended C7 statement at a concrete state. -/
theorem c7_iterable_pop_clears_mark_witness :
    ∃ s1, c7_wit_state.step = StepRes.cont s1 ∧ s1.stack = [] ∧
      (s1.read_cell (IterStackLoc.iterable_loc 0 HeapOrStackTag.Heap)).mark = false ∧
      ∀ hs i, ¬((IterStackLoc.iterable_loc 0 HeapOrStackTag.Heap).heap_or_stack = hs ∧
          (IterStackLoc.iterable_loc 0 HeapOrStackTag.Heap).value = i) →
        cellAt s1 hs i = cellAt c7_wit_state hs i :=
  c7_iterable_pop_clears_mark c7_wit_state (IterStackLoc.iterable_loc 0 HeapOrStackTag.Heap) []
    rfl rfl (by decide) (by decide)

/-- C9: direct_subterm_of_str returns false when the parent stack is empty
and false when the top parent frame does not hold a structure header; when
the top frame holds Atom(name, arity) recorded at focus position
parent_focus, it returns true exactly when parent_focus < idx and
idx is at most parent_focus + arity. -/
theorem c9_direct_subterm_spec (s : PostOrderState) (idx : Nat) :
    (s.parent_stack = [] → direct_subterm_of_str s idx = false) ∧
    (∀ cc item fc pt, s.parent_stack = (cc, item, fc) :: pt →
      (∀ name ar, item.payload = CellPayload.Atom name ar →
        (direct_subterm_of_str s idx = true ↔ fc.value < idx ∧ idx ≤ fc.value + ar)) ∧
      ((∀ name ar, item.payload ≠ CellPayload.Atom name ar) →
        direct_subterm_of_str s idx = false)) := by
  constructor
  · intro hempty
    unfold direct_subterm_of_str
    rw [hempty]
  · intro cc item fc pt hstack
    constructor
    · intro name ar hatom
      unfold direct_subterm_of_str
      rw [hstack]
      dsimp only
      rw [hatom]
      simp only [Bool.and_eq_true, decide_eq_true_eq, ge_iff_le]
      constructor
      · intro hc
        exact ⟨hc.2, hc.1⟩
      · intro hc
        exact ⟨hc.2, hc.1⟩
    · intro hnot
      unfold direct_subterm_of_str
      rw [hstack]
      dsimp only
      cases hpl : item.payload
      case Atom name ar => exact absurd hpl (hnot name ar)
      all_goals rfl

/-- Witness for the C9 statement at a concrete adapter state. -/
theorem c9_direct_subterm_spec_witness :
    direct_subterm_of_str c9_wit_state 1 = true :=
  (((c9_direct_subterm_spec c9_wit_state 1).2 2 (cell (CellPayload.Atom fSym 2))
      (IterStackLoc.iterable_loc 0 HeapOrStackTag.Heap) [] rfl).1 fSym 2 rfl).mpr
    (by decide)

/-- C6 counterexample: over the heap [Atom(f,1), Str(0)] with root
heap_loc(1), the third follow-loop iteration dispatches the structure
header Atom(f,1) at position 0 for the first (and only) time, with arity
1 > 0; it yields the header, but the work list it leaves is
[Marked(1), Iterable(0), Iterable(1)]: no Iterable entry for the first
argument location 1 is pushed at this dispatch (the claimed shape would be
[Marked(1), Iterable(1), Iterable(0), Iterable(1)]), because the argument
cell was already marked. -/
theorem c6_first_arg_not_pushed :
    c6_s0.step = StepRes.cont c6_s1 ∧
    c6_s1.step = StepRes.cont c6_s2 ∧
    c6_s2.stack.head? = some (IterStackLoc.mark_loc 0 HeapOrStackTag.Heap) ∧
    (c6_s2.read_cell (IterStackLoc.mark_loc 0 HeapOrStackTag.Heap)).payload =
      CellPayload.Atom fSym 1 ∧
    c6_s2.step = StepRes.yield ⟨CellPayload.Atom fSym 1, true, false⟩ c6_s3 ∧
    c6_s3.stack = [IterStackLoc.mark_loc 1 HeapOrStackTag.Heap,
                   IterStackLoc.iterable_loc 0 HeapOrStackTag.Heap,
                   IterStackLoc.iterable_loc 1 HeapOrStackTag.Heap] ∧
    c6_s3.stack ≠ [IterStackLoc.mark_loc 1 HeapOrStackTag.Heap,
                   IterStackLoc.iterable_loc 1 HeapOrStackTag.Heap,
                   IterStackLoc.iterable_loc 0 HeapOrStackTag.Heap,
                   IterStackLoc.iterable_loc 1 HeapOrStackTag.Heap] := by
  refine ⟨by decide, by decide, by decide, by decide, by decide, by decide, by decide⟩

theorem cellAt_eq_of_heap_ms (X s : IterState) (h1 : X.heap = s.heap)
    (h2 : X.machine_stack = s.machine_stack) (hs : HeapOrStackTag) (i : Nat) :
    cellAt X hs i = cellAt s hs i := by
  cases hs
  · unfold cellAt
    rw [h1]
  · unfold cellAt
    rw [h2]

theorem lenAt_eq_of_heap_ms (X s : IterState) (h1 : X.heap = s.heap)
    (h2 : X.machine_stack = s.machine_stack) (hs : HeapOrStackTag) :
    lenAt X hs = lenAt s hs := by
  cases hs
  · unfold lenAt
    rw [h1]
  · unfold lenAt
    rw [h2]

theorem piu_spec (X : IterState) (loc : IterStackLoc) :
    ((X.read_cell loc).mark = true ∧ X.push_if_unmarked loc = X) ∨
    ((X.read_cell loc).mark = false ∧ X.push_if_unmarked loc =
      (X.set_mark_at loc true).push_stack
        (IterStackLoc.iterable_loc loc.value loc.heap_or_stack)) := by
  unfold IterState.push_if_unmarked
  cases hb : (X.read_cell loc).mark
  · right
    exact ⟨rfl, by simp⟩
  · left
    exact ⟨rfl, by simp⟩

theorem heap_getD_eq_cellAt (s : IterState) (i : Nat) :
    s.heap.getD i defaultCell = cellAt s HeapOrStackTag.Heap i := rfl

theorem ms_getD_eq_cellAt (s : IterState) (i : Nat) :
    s.machine_stack.getD i defaultCell = cellAt s HeapOrStackTag.Stack i := rfl

theorem no_heap_fwd (init s : IterState) (hinv : Inv init s) (e : IterStackLoc)
    (rest : List IterStackLoc) (hstack : s.stack = e :: rest)
    (hcond : e.tag = IterStackLocTag.PendingMark ∨ (s.read_cell e).forwarding = false) :
    ∀ i, (s.heap.getD i defaultCell).forwarding = false := by
  intro i
  cases hb : (s.heap.getD i defaultCell).forwarding
  · rfl
  · exfalso
    obtain ⟨e2, rest2, hst2, hval, hho, htag, _⟩ := hinv.fwd_entry i hb
    rw [hstack] at hst2
    injection hst2 with h1 h2
    subst h1
    rcases hcond with hp | hf
    · exact htag hp
    · have hre : s.read_cell e = cellAt s HeapOrStackTag.Heap i := by
        rw [read_cell_eq_cellAt, hho, hval]
      rw [hre, ← heap_getD_eq_cellAt, hb] at hf
      exact Bool.true_eq_false ▸ hf

theorem inv_pop_only (init s : IterState) (hinv : Inv init s) (e : IterStackLoc)
    (rest : List IterStackLoc) (hstack : s.stack = e :: rest)
    (hnofwd : ∀ i, (s.heap.getD i defaultCell).forwarding = false)
    (henot : e.tag = IterStackLocTag.Iterable → (s.read_cell e).mark = false)
    (X : IterState) (hXh : X.heap = s.heap) (hXms : X.machine_stack = s.machine_stack)
    (hXst : X.stack = rest) :
    Inv init X := by
  refine ⟨?_, ?_, ?_, ?_⟩
  · rw [hXh]
    exact hinv.heap_len
  · intro i
    rw [hXh]
    exact hinv.heap_payload i
  · intro i hm
    rw [hXh] at hm
    have hmem := hinv.mark_entry i hm
    rw [hstack] at hmem
    rcases List.mem_cons.mp hmem with hcase | hcase
    · exfalso
      have htg : e.tag = IterStackLocTag.Iterable := by
        rw [← hcase]
      have humk := henot htg
      have hre : s.read_cell e = cellAt s HeapOrStackTag.Heap i := by
        rw [read_cell_eq_cellAt, ← hcase]
      rw [hre, ← heap_getD_eq_cellAt, hm] at humk
      exact Bool.true_eq_false ▸ humk
    · rw [hXst]
      exact hcase
  · intro i hf
    rw [hXh] at hf
    rw [hnofwd i] at hf
    exact absurd hf (by decide)

theorem inv_clear_fwd (init s : IterState) (hinv : Inv init s) (e : IterStackLoc)
    (rest : List IterStackLoc) (hstack : s.stack = e :: rest)
    (hfwd : (s.read_cell e).forwarding = true)
    (X : IterState) (hXh : X.heap = s.heap) (hXms : X.machine_stack = s.machine_stack)
    (hXst : X.stack = rest) :
    Inv init (X.set_forwarding_at e false) := by
  have hcellX : ∀ hs i, cellAt X hs i = cellAt s hs i := cellAt_eq_of_heap_ms X s hXh hXms
  refine ⟨?_, ?_, ?_, ?_⟩
  · have h1 : (X.set_forwarding_at e false).heap.length = X.heap.length := by
      have := lenAt_set_fwd X e false HeapOrStackTag.Heap
      exact this
    rw [h1, hXh]
    exact hinv.heap_len
  · intro i
    have h1 := cellAt_set_fwd_payload X e false HeapOrStackTag.Heap i
    rw [heap_getD_eq_cellAt, h1, hcellX, ← heap_getD_eq_cellAt]
    exact hinv.heap_payload i
  · intro i hm
    rw [heap_getD_eq_cellAt, cellAt_set_fwd_mark, hcellX, ← heap_getD_eq_cellAt] at hm
    have hmem := hinv.mark_entry i hm
    rw [hstack] at hmem
    have hstX : (X.set_forwarding_at e false).stack = rest := by
      rw [set_fwd_at_stack, hXst]
    rcases List.mem_cons.mp hmem with hcase | hcase
    · -- the entry is e itself: e is Iterable-tagged at a forwarded, marked cell,
      -- so the fwd_entry clause provides the second Iterable entry below it
      have hre : s.read_cell e = cellAt s HeapOrStackTag.Heap i := by
        rw [read_cell_eq_cellAt, ← hcase]
      have hfi : (s.heap.getD i defaultCell).forwarding = true := by
        rw [heap_getD_eq_cellAt, ← hre]
        exact hfwd
      obtain ⟨e2, rest2, hst2, _, _, _, hcl⟩ := hinv.fwd_entry i hfi
      rw [hstack] at hst2
      injection hst2 with h1 h2
      subst h1
      have htg : e.tag = IterStackLocTag.Iterable := by
        rw [← hcase]
      rw [hstX, h2]
      exact hcl htg hm
    · rw [hstX]
      exact hcase
  · intro i hf
    exfalso
    rw [heap_getD_eq_cellAt, IterState.set_forwarding_at, cellAt_modify_cell] at hf
    by_cases hc : e.heap_or_stack = HeapOrStackTag.Heap ∧ e.value = i ∧ i < lenAt X HeapOrStackTag.Heap
    · rw [if_pos hc] at hf
      exact absurd hf (by simp [HeapCellValue.set_forwarding_bit])
    · rw [if_neg hc] at hf
      rw [hcellX, ← heap_getD_eq_cellAt] at hf
      -- any forwarded cell of s is at the head position e, in range
      obtain ⟨e2, rest2, hst2, hval, hho, _, _⟩ := hinv.fwd_entry i hf
      rw [hstack] at hst2
      injection hst2 with h1 h2
      subst h1
      have hlt : i < lenAt s HeapOrStackTag.Heap := fwd_true_lt s HeapOrStackTag.Heap i hf
      have hltX : i < lenAt X HeapOrStackTag.Heap := by
        rw [lenAt_eq_of_heap_ms X s hXh hXms]
        exact hlt
      exact hc ⟨hho, hval, hltX⟩

theorem inv_clear_mark (init s : IterState) (hinv : Inv init s) (e : IterStackLoc)
    (rest : List IterStackLoc) (hstack : s.stack = e :: rest)
    (hnofwd : ∀ i, (s.heap.getD i defaultCell).forwarding = false)
    (X : IterState) (hXh : X.heap = s.heap) (hXms : X.machine_stack = s.machine_stack)
    (hXst : X.stack = rest) :
    Inv init (X.set_mark_at e false) := by
  have hcellX : ∀ hs i, cellAt X hs i = cellAt s hs i := cellAt_eq_of_heap_ms X s hXh hXms
  refine ⟨?_, ?_, ?_, ?_⟩
  · have h1 : (X.set_mark_at e false).heap.length = X.heap.length :=
      lenAt_set_mark X e false HeapOrStackTag.Heap
    rw [h1, hXh]
    exact hinv.heap_len
  · intro i
    have h1 := cellAt_set_mark_payload X e false HeapOrStackTag.Heap i
    rw [heap_getD_eq_cellAt, h1, hcellX, ← heap_getD_eq_cellAt]
    exact hinv.heap_payload i
  · intro i hm
    have hstX : (X.set_mark_at e false).stack = rest := by
      rw [set_mark_at_stack, hXst]
    rw [heap_getD_eq_cellAt, IterState.set_mark_at, cellAt_modify_cell] at hm
    by_cases hc : e.heap_or_stack = HeapOrStackTag.Heap ∧ e.value = i ∧ i < lenAt X HeapOrStackTag.Heap
    · rw [if_pos hc] at hm
      exact absurd hm (by simp [HeapCellValue.set_mark_bit])
    · rw [if_neg hc] at hm
      rw [hcellX, ← heap_getD_eq_cellAt] at hm
      have hmem := hinv.mark_entry i hm
      rw [hstack] at hmem
      rcases List.mem_cons.mp hmem with hcase | hcase
      · exfalso
        have hlt : i < lenAt s HeapOrStackTag.Heap :=
          mark_true_lt s HeapOrStackTag.Heap i hm
        have hltX : i < lenAt X HeapOrStackTag.Heap := by
          rw [lenAt_eq_of_heap_ms X s hXh hXms]
          exact hlt
        refine hc ⟨?_, ?_, hltX⟩
        · rw [← hcase]
        · rw [← hcase]
      · rw [hstX]
        exact hcase
  · intro i hf
    exfalso
    rw [heap_getD_eq_cellAt, cellAt_set_mark_fwd, hcellX, ← heap_getD_eq_cellAt] at hf
    rw [hnofwd i] at hf
    exact absurd hf (by decide)

theorem inv_after_pushes (init s : IterState) (hinv : Inv init s) (e : IterStackLoc)
    (rest : List IterStackLoc) (hstack : s.stack = e :: rest)
    (hnofwd : ∀ i, (s.heap.getD i defaultCell).forwarding = false)
    (henot : e.tag = IterStackLocTag.Iterable → (s.read_cell e).mark = false)
    (X : IterState) (hXh : X.heap = s.heap) (hXms : X.machine_stack = s.machine_stack)
    (piuLoc : IterStackLoc) (tops L2 : List IterStackLoc)
    (hXst : X.stack = L2 ++ rest) :
    Inv init ((X.push_if_unmarked piuLoc).with_stack
      (tops ++ (X.push_if_unmarked piuLoc).stack)) ∧
    (∀ i, (((X.push_if_unmarked piuLoc).with_stack
      (tops ++ (X.push_if_unmarked piuLoc).stack)).heap.getD i defaultCell).forwarding
        = false) := by
  have hcellX : ∀ hs i, cellAt X hs i = cellAt s hs i := cellAt_eq_of_heap_ms X s hXh hXms
  have hmem_rest : ∀ i, (s.heap.getD i defaultCell).mark = true →
      IterStackLoc.mk i IterStackLocTag.Iterable HeapOrStackTag.Heap ∈ rest := by
    intro i hm
    have hmem := hinv.mark_entry i hm
    rw [hstack] at hmem
    rcases List.mem_cons.mp hmem with hcase | hcase
    · exfalso
      have htg : e.tag = IterStackLocTag.Iterable := by
        rw [← hcase]
      have humk := henot htg
      have hre : s.read_cell e = cellAt s HeapOrStackTag.Heap i := by
        rw [read_cell_eq_cellAt, ← hcase]
      rw [hre, ← heap_getD_eq_cellAt, hm] at humk
      exact Bool.true_eq_false ▸ humk
    · exact hcase
  rcases piu_spec X piuLoc with ⟨hm, heq⟩ | ⟨hm, heq⟩
  · rw [heq]
    constructor
    · refine ⟨?_, ?_, ?_, ?_⟩
      · have h1 : (X.with_stack (tops ++ X.stack)).heap.length = s.heap.length := by
          rw [IterState.with_stack, hXh]
        rw [h1]
        exact hinv.heap_len
      · intro i
        rw [show (X.with_stack (tops ++ X.stack)).heap = s.heap from hXh]
        exact hinv.heap_payload i
      · intro i hmk
        rw [show (X.with_stack (tops ++ X.stack)).heap = s.heap from hXh] at hmk
        have hmem := hmem_rest i hmk
        show _ ∈ tops ++ X.stack
        rw [hXst]
        exact List.mem_append_right tops (List.mem_append_right L2 hmem)
      · intro i hf
        rw [show (X.with_stack (tops ++ X.stack)).heap = s.heap from hXh, hnofwd i] at hf
        exact absurd hf (by decide)
    · intro i
      rw [show (X.with_stack (tops ++ X.stack)).heap = s.heap from hXh]
      exact hnofwd i
  · rw [heq]
    set Y := (X.set_mark_at piuLoc true).push_stack
      (IterStackLoc.iterable_loc piuLoc.value piuLoc.heap_or_stack) with hYdef
    have hYheap : Y.heap = (X.set_mark_at piuLoc true).heap := rfl
    have hYstack : Y.stack =
        IterStackLoc.iterable_loc piuLoc.value piuLoc.heap_or_stack :: (L2 ++ rest) := by
      rw [hYdef, IterState.push_stack, set_mark_at_stack, hXst]
    have hlen : ∀ hs, lenAt Y hs = lenAt s hs := by
      intro hs
      have h1 : lenAt Y hs = lenAt (X.set_mark_at piuLoc true) hs := by
        rw [hYdef]
        exact lenAt_push_stack _ _ hs
      rw [h1, lenAt_set_mark]
      exact lenAt_eq_of_heap_ms X s hXh hXms hs
    have hcellY : ∀ hs i, cellAt Y hs i = cellAt (X.set_mark_at piuLoc true) hs i := by
      intro hs i
      rw [hYdef]
      exact cellAt_push_stack _ _ hs i
    constructor
    · refine ⟨?_, ?_, ?_, ?_⟩
      · have h1 : (Y.with_stack (tops ++ Y.stack)).heap.length = lenAt Y HeapOrStackTag.Heap := by
          rw [IterState.with_stack]
          rfl
        rw [h1, hlen]
        exact hinv.heap_len
      · intro i
        have h1 : (Y.with_stack (tops ++ Y.stack)).heap = Y.heap := rfl
        rw [h1, heap_getD_eq_cellAt, hcellY, IterState.set_mark_at, cellAt_modify_payload]
        · rw [hcellX, ← heap_getD_eq_cellAt]
          exact hinv.heap_payload i
        · intro c
          rfl
      · intro i hmk
        have h1 : (Y.with_stack (tops ++ Y.stack)).heap = Y.heap := rfl
        rw [h1, heap_getD_eq_cellAt, hcellY, IterState.set_mark_at, cellAt_modify_cell] at hmk
        show _ ∈ tops ++ Y.stack
        by_cases hc : piuLoc.heap_or_stack = HeapOrStackTag.Heap ∧ piuLoc.value = i ∧
            i < lenAt X HeapOrStackTag.Heap
        · refine List.mem_append_right tops ?_
          rw [hYstack]
          refine List.mem_cons.mpr (Or.inl ?_)
          rw [IterStackLoc.iterable_loc]
          have hv : piuLoc.value = i := hc.2.1
          have ho : piuLoc.heap_or_stack = HeapOrStackTag.Heap := hc.1
          rw [hv, ho]
        · rw [if_neg hc, hcellX, ← heap_getD_eq_cellAt] at hmk
          refine List.mem_append_right tops ?_
          rw [hYstack]
          exact List.mem_cons.mpr (Or.inr (List.mem_append_right L2 (hmem_rest i hmk)))
      · intro i hf
        exfalso
        have h1 : (Y.with_stack (tops ++ Y.stack)).heap = Y.heap := rfl
        rw [h1, heap_getD_eq_cellAt, hcellY, cellAt_set_mark_fwd, hcellX,
          ← heap_getD_eq_cellAt, hnofwd i] at hf
        exact absurd hf (by decide)
    · intro i
      have h1 : (Y.with_stack (tops ++ Y.stack)).heap = Y.heap := rfl
      rw [h1, heap_getD_eq_cellAt, hcellY, cellAt_set_mark_fwd, hcellX,
        ← heap_getD_eq_cellAt]
      exact hnofwd i

theorem inv_fc (init R1 : IterState) (hinv1 : Inv init R1)
    (hnofwd1 : ∀ i, (R1.heap.getD i defaultCell).forwarding = false)
    (loc : IterStackLoc) (top : IterStackLoc) (tail2 : List IterStackLoc)
    (hst : R1.stack = top :: tail2)
    (hv : top.value = loc.value) (ho : top.heap_or_stack = loc.heap_or_stack)
    (ht : top.tag ≠ IterStackLocTag.PendingMark)
    (hIcl : top.tag = IterStackLocTag.Iterable → loc.heap_or_stack = HeapOrStackTag.Heap →
      (R1.heap.getD loc.value defaultCell).mark = true →
      IterStackLoc.mk loc.value IterStackLocTag.Iterable HeapOrStackTag.Heap ∈ tail2) :
    Inv init (R1.forward_if_referent_marked loc) := by
  unfold IterState.forward_if_referent_marked
  split
  · set R2 := R1.set_forwarding_at loc true with hR2def
    have hR2stack : R2.stack = R1.stack := set_fwd_at_stack R1 loc true
    refine ⟨?_, ?_, ?_, ?_⟩
    · have h1 : R2.heap.length = R1.heap.length := lenAt_set_fwd R1 loc true HeapOrStackTag.Heap
      rw [h1]
      exact hinv1.heap_len
    · intro i
      rw [heap_getD_eq_cellAt, hR2def, cellAt_set_fwd_payload, ← heap_getD_eq_cellAt]
      exact hinv1.heap_payload i
    · intro i hmk
      rw [heap_getD_eq_cellAt, hR2def, cellAt_set_fwd_mark, ← heap_getD_eq_cellAt] at hmk
      rw [hR2stack]
      exact hinv1.mark_entry i hmk
    · intro i hf
      rw [heap_getD_eq_cellAt, hR2def, IterState.set_forwarding_at, cellAt_modify_cell] at hf
      by_cases hc : loc.heap_or_stack = HeapOrStackTag.Heap ∧ loc.value = i ∧
          i < lenAt R1 HeapOrStackTag.Heap
      · refine ⟨top, tail2, ?_, ?_, ?_, ht, ?_⟩
        · rw [hR2stack, hst]
        · rw [hv, hc.2.1]
        · rw [ho, hc.1]
        · intro htg hmk
          rw [heap_getD_eq_cellAt, hR2def, cellAt_set_fwd_mark, ← heap_getD_eq_cellAt] at hmk
          have hmk2 : (R1.heap.getD loc.value defaultCell).mark = true := by
            rw [hc.2.1]
            exact hmk
          have hmem := hIcl htg hc.1 hmk2
          rw [hc.2.1] at hmem
          exact hmem
      · exfalso
        rw [if_neg hc, ← heap_getD_eq_cellAt, hnofwd1 i] at hf
        exact absurd hf (by decide)
  · exact hinv1

theorem cellAt_piu_mark_ne (X : IterState) (loc : IterStackLoc) (hs : HeapOrStackTag) (i : Nat)
    (hne : ¬(loc.heap_or_stack = hs ∧ loc.value = i)) :
    (cellAt (X.push_if_unmarked loc) hs i).mark = (cellAt X hs i).mark := by
  rcases piu_spec X loc with ⟨_, heq⟩ | ⟨_, heq⟩
  · rw [heq]
  · rw [heq, cellAt_push_stack, IterState.set_mark_at, cellAt_modify_cell, if_neg]
    intro hcon
    exact hne ⟨hcon.1, hcon.2.1⟩

theorem stepRel_cont_elim (s s2 X : IterState) (hstep : s.step = StepRes.cont X)
    (hrel : StepRel s s2) : s2 = X := by
  rcases hrel with hc | ⟨c0, hy⟩
  · rw [hstep] at hc
    injection hc with h
    exact h.symm
  · rw [hstep] at hy
    exact StepRes.noConfusion hy

theorem stepRel_yield_elim (s s2 X : IterState) (c : HeapCellValue)
    (hstep : s.step = StepRes.yield c X) (hrel : StepRel s s2) : s2 = X := by
  rcases hrel with hc | ⟨c0, hy⟩
  · rw [hstep] at hc
    exact StepRes.noConfusion hc
  · rw [hstep] at hy
    injection hy with h1 h2
    exact h2.symm

theorem Inv_step (init s s2 : IterState) (hinv : Inv init s) (hrel : StepRel s s2) :
    Inv init s2 := by
  cases hs : s.stack with
  | nil =>
    exfalso
    have hstep : s.step = StepRes.done s := by
      unfold IterState.step
      rw [hs]
    rcases hrel with hc | ⟨c0, hy⟩
    · rw [hstep] at hc
      exact StepRes.noConfusion hc
    · rw [hstep] at hy
      exact StepRes.noConfusion hy
  | cons e rest =>
    by_cases hpd : e.is_pending_mark = true
    · -- a PendingMark entry is popped
      have hptag : e.tag = IterStackLocTag.PendingMark := by
        unfold IterStackLoc.is_pending_mark at hpd
        cases htg : e.tag
        · rw [htg] at hpd
          exact absurd hpd (by decide)
        · rw [htg] at hpd
          exact absurd hpd (by decide)
        · rfl
      have hstep : s.step = StepRes.cont ((((s.with_stack rest).push_if_unmarked e).push_stack
          (IterStackLoc.mark_loc e.value e.heap_or_stack)).forward_if_referent_marked e) := by
        unfold IterState.step
        rw [hs]
        simp only [hpd, if_true]
      have hs2 := stepRel_cont_elim s s2 _ hstep hrel
      subst hs2
      have hnofwd := no_heap_fwd init s hinv e rest hs (Or.inl hptag)
      have henot : e.tag = IterStackLocTag.Iterable → (s.read_cell e).mark = false := by
        intro htg
        rw [hptag] at htg
        exact absurd htg (by decide)
      obtain ⟨hinv1, hnofwd1⟩ := inv_after_pushes init s hinv e rest hs hnofwd henot
        (s.with_stack rest) rfl rfl e [IterStackLoc.mark_loc e.value e.heap_or_stack] []
        rfl
      exact inv_fc init _ hinv1 hnofwd1 e (IterStackLoc.mark_loc e.value e.heap_or_stack)
        ((s.with_stack rest).push_if_unmarked e).stack rfl rfl rfl
        (fun h2 => IterStackLocTag.noConfusion h2)
        (fun htg => IterStackLocTag.noConfusion htg)
    · have hpd2 : e.is_pending_mark = false := by
        cases hb : e.is_pending_mark
        · rfl
        · exact absurd hb hpd
      have hptag : e.tag ≠ IterStackLocTag.PendingMark := by
        intro htg
        unfold IterStackLoc.is_pending_mark at hpd2
        rw [htg] at hpd2
        exact absurd hpd2 (by decide)
      have hread : ∀ l2 : IterStackLoc,
          (((s.with_stack rest).with_focus e).read_cell l2) = s.read_cell l2 := by
        intro l2
        rw [read_cell_eq_cellAt, read_cell_eq_cellAt, cellAt_with_focus, cellAt_with_stack]
      by_cases hfw : (s.read_cell e).forwarding = true
      · -- the forwarding bit is set: yield the cycle sentinel
        have hstep : s.step = StepRes.yield (s.read_cell e)
            (((s.with_stack rest).with_focus e).set_forwarding_at e false) := by
          unfold IterState.step
          rw [hs]
          simp only [hpd2, Bool.false_eq_true, if_false, hread, hfw, if_true]
        have hs2 := stepRel_yield_elim s s2 _ _ hstep hrel
        subst hs2
        exact inv_clear_fwd init s hinv e rest hs hfw
          ((s.with_stack rest).with_focus e) rfl rfl rfl
      · have hfw2 : (s.read_cell e).forwarding = false := by
          cases hb : (s.read_cell e).forwarding
          · rfl
          · exact absurd hb hfw
        have hnofwd := no_heap_fwd init s hinv e rest hs (Or.inr hfw2)
        by_cases hmk : ((s.read_cell e).mark && !e.is_marked) = true
        · -- an Iterable entry over a marked cell: clear the mark
          have hstep : s.step = StepRes.cont
              (((s.with_stack rest).with_focus e).set_mark_at e false) := by
            unfold IterState.step
            rw [hs]
            simp only [hpd2, Bool.false_eq_true, if_false, hread, hfw2, hmk, if_true]
          have hs2 := stepRel_cont_elim s s2 _ hstep hrel
          subst hs2
          exact inv_clear_mark init s hinv e rest hs hnofwd
            ((s.with_stack rest).with_focus e) rfl rfl rfl
        · have hmk2 : ((s.read_cell e).mark && !e.is_marked) = false := by
            cases hb : ((s.read_cell e).mark && !e.is_marked)
            · rfl
            · exact absurd hb hmk
          have henot : e.tag = IterStackLocTag.Iterable → (s.read_cell e).mark = false := by
            intro htg
            have hmF : e.is_marked = false := by
              unfold IterStackLoc.is_marked
              rw [htg]
            rw [hmF] at hmk2
            simpa using hmk2
          set X := (s.with_stack rest).with_focus e with hXdef
          have hXh : X.heap = s.heap := rfl
          have hXms : X.machine_stack = s.machine_stack := rfl
          have hXst : X.stack = rest := rfl
          cases hpl : (s.read_cell e).payload with
          | Str vh =>
            set S2 := (X.push_if_unmarked (IterStackLoc.iterable_loc vh
              HeapOrStackTag.Heap)).push_stack (IterStackLoc.mark_loc vh HeapOrStackTag.Heap)
              with hS2def
            have hstep : s.step = StepRes.cont S2 := by
              unfold IterState.step
              rw [hs]
              simp only [hpd2, Bool.false_eq_true, if_false, hread, hfw2, hmk2, hpl]
            have hs2 := stepRel_cont_elim s s2 _ hstep hrel
            subst hs2
            exact (inv_after_pushes init s hinv e rest hs hnofwd henot X rfl rfl
              (IterStackLoc.iterable_loc vh HeapOrStackTag.Heap)
              [IterStackLoc.mark_loc vh HeapOrStackTag.Heap] [] hXst).1
          | PStrLoc vh =>
            set S2 := (X.push_if_unmarked (IterStackLoc.iterable_loc vh
              HeapOrStackTag.Heap)).push_stack (IterStackLoc.mark_loc vh HeapOrStackTag.Heap)
              with hS2def
            have hstep : s.step = StepRes.cont S2 := by
              unfold IterState.step
              rw [hs]
              simp only [hpd2, Bool.false_eq_true, if_false, hread, hfw2, hmk2, hpl]
            have hs2 := stepRel_cont_elim s s2 _ hstep hrel
            subst hs2
            exact (inv_after_pushes init s hinv e rest hs hnofwd henot X rfl rfl
              (IterStackLoc.iterable_loc vh HeapOrStackTag.Heap)
              [IterStackLoc.mark_loc vh HeapOrStackTag.Heap] [] hXst).1
          | Lis vh =>
            set S4 := ((X.push_if_unmarked (IterStackLoc.iterable_loc vh
              HeapOrStackTag.Heap)).push_stack
              (IterStackLoc.pending_mark_loc (vh + 1) HeapOrStackTag.Heap)).push_stack
              (IterStackLoc.mark_loc vh HeapOrStackTag.Heap) with hS4def
            set S5 := S4.forward_if_referent_marked
              (IterStackLoc.iterable_loc vh HeapOrStackTag.Heap) with hS5def
            have hstep : s.step = StepRes.yield (S5.read_cell e) S5 := by
              unfold IterState.step
              rw [hs]
              simp only [hpd2, Bool.false_eq_true, if_false, hread, hfw2, hmk2, hpl]
            have hs2 := stepRel_yield_elim s s2 _ _ hstep hrel
            subst hs2
            obtain ⟨hinv1, hnofwd1⟩ := inv_after_pushes init s hinv e rest hs hnofwd henot
              X rfl rfl (IterStackLoc.iterable_loc vh HeapOrStackTag.Heap)
              [IterStackLoc.mark_loc vh HeapOrStackTag.Heap,
               IterStackLoc.pending_mark_loc (vh + 1) HeapOrStackTag.Heap] [] hXst
            exact inv_fc init _ hinv1 hnofwd1
              (IterStackLoc.iterable_loc vh HeapOrStackTag.Heap)
              (IterStackLoc.mark_loc vh HeapOrStackTag.Heap)
              (IterStackLoc.pending_mark_loc (vh + 1) HeapOrStackTag.Heap ::
                (X.push_if_unmarked (IterStackLoc.iterable_loc vh HeapOrStackTag.Heap)).stack)
              rfl rfl rfl (fun h2 => IterStackLocTag.noConfusion h2)
              (fun htg => IterStackLocTag.noConfusion htg)
          | AttrVar vh =>
            set S3 := ((X.push_if_unmarked (IterStackLoc.iterable_loc vh
              HeapOrStackTag.Heap)).push_stack
              (IterStackLoc.mark_loc vh HeapOrStackTag.Heap)).forward_if_referent_marked
              (IterStackLoc.iterable_loc vh HeapOrStackTag.Heap) with hS3def
            have hstep : s.step = StepRes.cont S3 := by
              unfold IterState.step
              rw [hs]
              simp only [hpd2, Bool.false_eq_true, if_false, hread, hfw2, hmk2, hpl]
            have hs2 := stepRel_cont_elim s s2 _ hstep hrel
            subst hs2
            obtain ⟨hinv1, hnofwd1⟩ := inv_after_pushes init s hinv e rest hs hnofwd henot
              X rfl rfl (IterStackLoc.iterable_loc vh HeapOrStackTag.Heap)
              [IterStackLoc.mark_loc vh HeapOrStackTag.Heap] [] hXst
            exact inv_fc init _ hinv1 hnofwd1
              (IterStackLoc.iterable_loc vh HeapOrStackTag.Heap)
              (IterStackLoc.mark_loc vh HeapOrStackTag.Heap)
              (X.push_if_unmarked (IterStackLoc.iterable_loc vh HeapOrStackTag.Heap)).stack
              rfl rfl rfl (fun h2 => IterStackLocTag.noConfusion h2)
              (fun htg => IterStackLocTag.noConfusion htg)
          | Var vh =>
            set S3 := ((X.push_if_unmarked (IterStackLoc.iterable_loc vh
              HeapOrStackTag.Heap)).push_stack
              (IterStackLoc.mark_loc vh HeapOrStackTag.Heap)).forward_if_referent_marked
              (IterStackLoc.iterable_loc vh HeapOrStackTag.Heap) with hS3def
            have hstep : s.step = StepRes.cont S3 := by
              unfold IterState.step
              rw [hs]
              simp only [hpd2, Bool.false_eq_true, if_false, hread, hfw2, hmk2, hpl]
            have hs2 := stepRel_cont_elim s s2 _ hstep hrel
            subst hs2
            obtain ⟨hinv1, hnofwd1⟩ := inv_after_pushes init s hinv e rest hs hnofwd henot
              X rfl rfl (IterStackLoc.iterable_loc vh HeapOrStackTag.Heap)
              [IterStackLoc.mark_loc vh HeapOrStackTag.Heap] [] hXst
            exact inv_fc init _ hinv1 hnofwd1
              (IterStackLoc.iterable_loc vh HeapOrStackTag.Heap)
              (IterStackLoc.mark_loc vh HeapOrStackTag.Heap)
              (X.push_if_unmarked (IterStackLoc.iterable_loc vh HeapOrStackTag.Heap)).stack
              rfl rfl rfl (fun h2 => IterStackLocTag.noConfusion h2)
              (fun htg => IterStackLocTag.noConfusion htg)
          | StackVar vs =>
            set S3 := ((X.push_if_unmarked (IterStackLoc.iterable_loc vs
              HeapOrStackTag.Stack)).push_stack
              (IterStackLoc.mark_loc vs HeapOrStackTag.Stack)).forward_if_referent_marked
              (IterStackLoc.iterable_loc vs HeapOrStackTag.Stack) with hS3def
            have hstep : s.step = StepRes.cont S3 := by
              unfold IterState.step
              rw [hs]
              simp only [hpd2, Bool.false_eq_true, if_false, hread, hfw2, hmk2, hpl]
            have hs2 := stepRel_cont_elim s s2 _ hstep hrel
            subst hs2
            obtain ⟨hinv1, hnofwd1⟩ := inv_after_pushes init s hinv e rest hs hnofwd henot
              X rfl rfl (IterStackLoc.iterable_loc vs HeapOrStackTag.Stack)
              [IterStackLoc.mark_loc vs HeapOrStackTag.Stack] [] hXst
            exact inv_fc init _ hinv1 hnofwd1
              (IterStackLoc.iterable_loc vs HeapOrStackTag.Stack)
              (IterStackLoc.mark_loc vs HeapOrStackTag.Stack)
              (X.push_if_unmarked (IterStackLoc.iterable_loc vs HeapOrStackTag.Stack)).stack
              rfl rfl rfl (fun h2 => IterStackLocTag.noConfusion h2)
              (fun htg hho => HeapOrStackTag.noConfusion hho)
          | PStrOffset offset =>
            set S3 := (X.push_if_unmarked (IterStackLoc.iterable_loc offset
              HeapOrStackTag.Heap)).push_stack
              (IterStackLoc.iterable_loc (e.value + 1) HeapOrStackTag.Heap) with hS3def
            have hstep : s.step = StepRes.yield (S3.read_cell e) S3 := by
              unfold IterState.step
              rw [hs]
              simp only [hpd2, Bool.false_eq_true, if_false, hread, hfw2, hmk2, hpl]
            have hs2 := stepRel_yield_elim s s2 _ _ hstep hrel
            subst hs2
            exact (inv_after_pushes init s hinv e rest hs hnofwd henot X rfl rfl
              (IterStackLoc.iterable_loc offset HeapOrStackTag.Heap)
              [IterStackLoc.iterable_loc (e.value + 1) HeapOrStackTag.Heap] [] hXst).1
          | PStr seg =>
            set S3 := (X.push_if_unmarked (IterStackLoc.iterable_loc e.value
              HeapOrStackTag.Heap)).push_stack
              (IterStackLoc.iterable_loc (e.value + 1) HeapOrStackTag.Heap) with hS3def
            set S4 := S3.forward_if_referent_marked
              (IterStackLoc.iterable_loc (e.value + 1) HeapOrStackTag.Heap) with hS4def
            have hstep : s.step = StepRes.yield (S4.read_cell e) S4 := by
              unfold IterState.step
              rw [hs]
              simp only [hpd2, Bool.false_eq_true, if_false, hread, hfw2, hmk2, hpl]
            have hs2 := stepRel_yield_elim s s2 _ _ hstep hrel
            subst hs2
            obtain ⟨hinv1, hnofwd1⟩ := inv_after_pushes init s hinv e rest hs hnofwd henot
              X rfl rfl (IterStackLoc.iterable_loc e.value HeapOrStackTag.Heap)
              [IterStackLoc.iterable_loc (e.value + 1) HeapOrStackTag.Heap] [] hXst
            refine inv_fc init _ hinv1 hnofwd1
              (IterStackLoc.iterable_loc (e.value + 1) HeapOrStackTag.Heap)
              (IterStackLoc.iterable_loc (e.value + 1) HeapOrStackTag.Heap)
              (X.push_if_unmarked (IterStackLoc.iterable_loc e.value HeapOrStackTag.Heap)).stack
              rfl rfl rfl (fun h2 => IterStackLocTag.noConfusion h2) ?_
            intro _ _ hmk3
            -- the tail cell at e.value + 1 was already marked before this dispatch
            have hmk3b : (cellAt (X.push_if_unmarked (IterStackLoc.iterable_loc e.value
                HeapOrStackTag.Heap)) HeapOrStackTag.Heap (e.value + 1)).mark = true := hmk3
            rw [cellAt_piu_mark_ne, cellAt_eq_of_heap_ms X s rfl rfl] at hmk3b
            · have hmem := hinv.mark_entry (e.value + 1) hmk3b
              rw [hs] at hmem
              rcases List.mem_cons.mp hmem with hcase | hcase
              · exfalso
                have hv2 : e.value + 1 = e.value := congrArg IterStackLoc.value hcase
                omega
              · rcases piu_spec X (IterStackLoc.iterable_loc e.value HeapOrStackTag.Heap) with
                  ⟨_, heq⟩ | ⟨_, heq⟩
                · rw [heq, hXst]
                  exact hcase
                · rw [heq, IterState.push_stack, set_mark_at_stack, hXst]
                  exact List.mem_cons.mpr (Or.inr hcase)
            · intro hcon
              have hv3 := hcon.2
              have hv4 : e.value = e.value + 1 := hv3
              omega
          | Atom name ar =>
            by_cases har : 0 < ar
            · set A := ((List.range' (e.value + 2) (ar - 1)).reverse).foldl
                (fun st i => st.push_stack (IterStackLoc.pending_mark_loc i
                  HeapOrStackTag.Heap)) X with hAdef
              set S4 := (A.push_if_unmarked (IterStackLoc.iterable_loc (e.value + 1)
                HeapOrStackTag.Heap)).push_stack
                (IterStackLoc.mark_loc (e.value + 1) HeapOrStackTag.Heap) with hS4def
              set S5 := S4.forward_if_referent_marked
                (IterStackLoc.iterable_loc (e.value + 1) HeapOrStackTag.Heap) with hS5def
              have hstep : s.step = StepRes.yield (S5.read_cell e) S5 := by
                unfold IterState.step
                rw [hs]
                simp only [hpd2, Bool.false_eq_true, if_false, hread, hfw2, hmk2, hpl, har,
                  if_pos]
              have hs2 := stepRel_yield_elim s s2 _ _ hstep hrel
              subst hs2
              have hA2 : A = X.with_stack
                  (((List.range' (e.value + 2) (ar - 1)).map
                    (fun i => IterStackLoc.pending_mark_loc i HeapOrStackTag.Heap)) ++ rest) := by
                rw [hAdef, foldl_push_stack, List.reverse_reverse, hXst]
              have hAh : A.heap = s.heap := by
                rw [hA2]
                rfl
              have hAms : A.machine_stack = s.machine_stack := by
                rw [hA2]
                rfl
              have hAst : A.stack = ((List.range' (e.value + 2) (ar - 1)).map
                  (fun i => IterStackLoc.pending_mark_loc i HeapOrStackTag.Heap)) ++ rest := by
                rw [hA2]
                rfl
              obtain ⟨hinv1, hnofwd1⟩ := inv_after_pushes init s hinv e rest hs hnofwd henot
                A hAh hAms (IterStackLoc.iterable_loc (e.value + 1) HeapOrStackTag.Heap)
                [IterStackLoc.mark_loc (e.value + 1) HeapOrStackTag.Heap]
                ((List.range' (e.value + 2) (ar - 1)).map
                  (fun i => IterStackLoc.pending_mark_loc i HeapOrStackTag.Heap)) hAst
              exact inv_fc init _ hinv1 hnofwd1
                (IterStackLoc.iterable_loc (e.value + 1) HeapOrStackTag.Heap)
                (IterStackLoc.mark_loc (e.value + 1) HeapOrStackTag.Heap)
                (A.push_if_unmarked (IterStackLoc.iterable_loc (e.value + 1)
                  HeapOrStackTag.Heap)).stack
                rfl rfl rfl (fun h2 => IterStackLocTag.noConfusion h2)
                (fun htg => IterStackLocTag.noConfusion htg)
            · have har0 : ar = 0 := Nat.eq_zero_of_not_pos har
              subst har0
              have hstep : s.step = StepRes.yield (X.read_cell e) X := by
                unfold IterState.step
                rw [hs]
                simp only [hpd2, Bool.false_eq_true, if_false, hread, hfw2, hmk2, hpl, har,
                  if_false]
                rfl
              have hs2 := stepRel_yield_elim s s2 _ _ hstep hrel
              subst hs2
              exact inv_pop_only init s hinv e rest hs hnofwd henot X rfl rfl hXst
          | Fixnum n =>
            have hstep : s.step = StepRes.yield (s.read_cell e) X := by
              unfold IterState.step
              rw [hs]
              simp only [hpd2, Bool.false_eq_true, if_false, hread, hfw2, hmk2, hpl]
            have hs2 := stepRel_yield_elim s s2 _ _ hstep hrel
            subst hs2
            exact inv_pop_only init s hinv e rest hs hnofwd henot X rfl rfl hXst
          | EmptyList =>
            have hstep : s.step = StepRes.yield (s.read_cell e) X := by
              unfold IterState.step
              rw [hs]
              simp only [hpd2, Bool.false_eq_true, if_false, hread, hfw2, hmk2, hpl]
            have hs2 := stepRel_yield_elim s s2 _ _ hstep hrel
            subst hs2
            exact inv_pop_only init s hinv e rest hs hnofwd henot X rfl rfl hXst

theorem cell_eq_of_parts (a b : HeapCellValue) (hp : a.payload = b.payload)
    (hm : a.mark = b.mark) (hf : a.forwarding = b.forwarding) : a = b := by
  cases a
  cases b
  simp only [] at hp hm hf
  rw [hp, hm, hf]

theorem clean_getD (l : List HeapCellValue)
    (hcl : ∀ c ∈ l, c.mark = false ∧ c.forwarding = false) (i : Nat) :
    (l.getD i defaultCell).mark = false ∧ (l.getD i defaultCell).forwarding = false := by
  by_cases h : i < l.length
  · have heq : l.getD i defaultCell = l[i] := by
      simp [List.getD, List.getElem?_eq_getElem h]
    rw [heq]
    exact hcl _ (l.getElem_mem h)
  · rw [getD_of_length_le _ _ _ (Nat.le_of_not_lt h)]
    exact ⟨rfl, rfl⟩

theorem Inv_init (heap0 ms0 : List HeapCellValue) (root : HeapCellValue)
    (hclean : CleanCells heap0) (hrm : root.mark = false) (hrf : root.forwarding = false) :
    Inv (stackful_preorder_iter heap0 ms0 root) (stackful_preorder_iter heap0 ms0 root) := by
  have hcells : ∀ c ∈ heap0 ++ [root], c.mark = false ∧ c.forwarding = false := by
    intro c hc
    rcases List.mem_append.mp hc with h | h
    · exact hclean c h
    · rw [List.mem_singleton.mp h]
      exact ⟨hrm, hrf⟩
  refine ⟨rfl, fun i => rfl, ?_, ?_⟩
  · intro i hm
    exfalso
    have := (clean_getD (heap0 ++ [root]) hcells i).1
    rw [show (stackful_preorder_iter heap0 ms0 root).heap = heap0 ++ [root] from rfl] at hm
    rw [hm] at this
    exact absurd this (by decide)
  · intro i hf
    exfalso
    have := (clean_getD (heap0 ++ [root]) hcells i).2
    rw [show (stackful_preorder_iter heap0 ms0 root).heap = heap0 ++ [root] from rfl] at hf
    rw [hf] at this
    exact absurd this (by decide)

theorem Inv_reaches (init s : IterState) (h0 : Inv init init) (hr : Reaches init s) :
    Inv init s := by
  induction hr with
  | refl => exact h0
  | tail hab hrel ih => exact Inv_step init _ _ ih hrel

theorem dropCells_heap_len (L : List IterStackLoc) (s : IterState) :
    (dropCells L s).heap.length = s.heap.length := by
  induction L generalizing s with
  | nil => rfl
  | cons e t ih =>
    rw [dropCells, ih]
    have h1 := lenAt_set_mark (s.set_forwarding_at e false) e false HeapOrStackTag.Heap
    have h2 := lenAt_set_fwd s e false HeapOrStackTag.Heap
    exact h1.trans h2

theorem dropCells_payload (L : List IterStackLoc) (s : IterState) (i : Nat) :
    ((dropCells L s).heap.getD i defaultCell).payload = (s.heap.getD i defaultCell).payload := by
  induction L generalizing s with
  | nil => rfl
  | cons e t ih =>
    rw [dropCells, ih]
    have h1 := cellAt_set_mark_payload (s.set_forwarding_at e false) e false HeapOrStackTag.Heap i
    have h2 := cellAt_set_fwd_payload s e false HeapOrStackTag.Heap i
    exact h1.trans h2

theorem dropCells_mark_mono (L : List IterStackLoc) (s : IterState) (i : Nat)
    (h : ((dropCells L s).heap.getD i defaultCell).mark = true) :
    (s.heap.getD i defaultCell).mark = true := by
  induction L generalizing s with
  | nil => exact h
  | cons e t ih =>
    rw [dropCells] at h
    have h1 := ih _ h
    rw [heap_getD_eq_cellAt, IterState.set_mark_at, cellAt_modify_cell] at h1
    by_cases hc : e.heap_or_stack = HeapOrStackTag.Heap ∧ e.value = i ∧
        i < lenAt (s.set_forwarding_at e false) HeapOrStackTag.Heap
    · rw [if_pos hc] at h1
      exact absurd h1 (by simp [HeapCellValue.set_mark_bit])
    · rw [if_neg hc, cellAt_set_fwd_mark, ← heap_getD_eq_cellAt] at h1
      exact h1

theorem dropCells_fwd_mono (L : List IterStackLoc) (s : IterState) (i : Nat)
    (h : ((dropCells L s).heap.getD i defaultCell).forwarding = true) :
    (s.heap.getD i defaultCell).forwarding = true := by
  induction L generalizing s with
  | nil => exact h
  | cons e t ih =>
    rw [dropCells] at h
    have h1 := ih _ h
    rw [heap_getD_eq_cellAt, cellAt_set_mark_fwd, IterState.set_forwarding_at,
      cellAt_modify_cell] at h1
    by_cases hc : e.heap_or_stack = HeapOrStackTag.Heap ∧ e.value = i ∧
        i < lenAt s HeapOrStackTag.Heap
    · rw [if_pos hc] at h1
      exact absurd h1 (by simp [HeapCellValue.set_forwarding_bit])
    · rw [if_neg hc, ← heap_getD_eq_cellAt] at h1
      exact h1

theorem dropCells_clears_mark (L : List IterStackLoc) (s : IterState) (i : Nat)
    (e : IterStackLoc) (he : e ∈ L) (hho : e.heap_or_stack = HeapOrStackTag.Heap)
    (hv : e.value = i) :
    ((dropCells L s).heap.getD i defaultCell).mark = false := by
  induction L generalizing s with
  | nil => exact absurd he (List.not_mem_nil e)
  | cons a t ih =>
    rw [dropCells]
    rcases List.mem_cons.mp he with hcase | hcase
    · subst hcase
      cases hb : ((dropCells t ((s.set_forwarding_at e false).set_mark_at e false)).heap.getD i
          defaultCell).mark
      · rfl
      · exfalso
        have h1 := dropCells_mark_mono t _ i hb
        rw [heap_getD_eq_cellAt, IterState.set_mark_at, cellAt_modify_cell] at h1
        by_cases hc : e.heap_or_stack = HeapOrStackTag.Heap ∧ e.value = i ∧
            i < lenAt (s.set_forwarding_at e false) HeapOrStackTag.Heap
        · rw [if_pos hc] at h1
          exact absurd h1 (by simp [HeapCellValue.set_mark_bit])
        · rw [if_neg hc, cellAt_set_fwd_mark, ← heap_getD_eq_cellAt] at h1
          have hlt : i < lenAt (s.set_forwarding_at e false) HeapOrStackTag.Heap := by
            rw [lenAt_set_fwd]
            exact mark_true_lt s HeapOrStackTag.Heap i h1
          exact hc ⟨hho, hv, hlt⟩
    · exact ih _ hcase

theorem dropCells_clears_fwd (L : List IterStackLoc) (s : IterState) (i : Nat)
    (e : IterStackLoc) (he : e ∈ L) (hho : e.heap_or_stack = HeapOrStackTag.Heap)
    (hv : e.value = i) :
    ((dropCells L s).heap.getD i defaultCell).forwarding = false := by
  induction L generalizing s with
  | nil => exact absurd he (List.not_mem_nil e)
  | cons a t ih =>
    rw [dropCells]
    rcases List.mem_cons.mp he with hcase | hcase
    · subst hcase
      cases hb : ((dropCells t ((s.set_forwarding_at e false).set_mark_at e false)).heap.getD i
          defaultCell).forwarding
      · rfl
      · exfalso
        have h1 := dropCells_fwd_mono t _ i hb
        rw [heap_getD_eq_cellAt, cellAt_set_mark_fwd, IterState.set_forwarding_at,
          cellAt_modify_cell] at h1
        by_cases hc : e.heap_or_stack = HeapOrStackTag.Heap ∧ e.value = i ∧
            i < lenAt s HeapOrStackTag.Heap
        · rw [if_pos hc] at h1
          exact absurd h1 (by simp [HeapCellValue.set_forwarding_bit])
        · rw [if_neg hc, ← heap_getD_eq_cellAt] at h1
          have hlt : i < lenAt s HeapOrStackTag.Heap :=
            fwd_true_lt s HeapOrStackTag.Heap i h1
          exact hc ⟨hho, hv, hlt⟩
    · exact ih _ hcase

/-- C1 counterexample: over a heap whose only cell is already marked before
construction, constructing the iterator with a clean root, calling next zero
times and dropping leaves heap[0] with its mark bit still set — the claim
that drop leaves every heap cell with mark = false fails for arbitrary
(dirty) input heaps. -/
theorem c1_dirty_heap_not_restored :
    ((dropIter (stackful_preorder_iter c1_dirty_heap [] (cell (CellPayload.Atom bSym 0)))).heap.getD
      0 defaultCell).mark = true := by
  decide

/-- C1 as amended: for every heap whose cells are all bit-clean before
construction, every machine stack, and every bit-clean root cell, after any
number of follow-loop transitions (hence after any number of next calls,
partial or to exhaustion) dropping the iterator leaves the heap at its
pre-construction length, with every cell's mark and forwarding bits false,
and with every cell below the pre-construction length bit-identical to its
pre-construction value. -/
theorem c1_drop_restores_clean_heap (heap0 ms0 : List HeapCellValue) (root : HeapCellValue)
    (hclean : CleanCells heap0) (hrm : root.mark = false) (hrf : root.forwarding = false)
    (s : IterState) (hr : Reaches (stackful_preorder_iter heap0 ms0 root) s) :
    (dropIter s).heap.length = heap0.length ∧
    (∀ i, ((dropIter s).heap.getD i defaultCell).mark = false ∧
      ((dropIter s).heap.getD i defaultCell).forwarding = false) ∧
    (∀ i, i < heap0.length → (dropIter s).heap.getD i defaultCell = heap0.getD i defaultCell) := by
  have hinv : Inv (stackful_preorder_iter heap0 ms0 root) s :=
    Inv_reaches _ s (Inv_init heap0 ms0 root hclean hrm hrf) hr
  set s1 := dropCells s.stack (s.with_stack []) with hs1def
  have hdropheap : (dropIter s).heap = s1.heap.dropLast := rfl
  have hlen1 : s1.heap.length = s.heap.length := by
    rw [hs1def]
    exact dropCells_heap_len s.stack (s.with_stack [])
  have hlen0 : s.heap.length = heap0.length + 1 := by
    rw [hinv.heap_len]
    show (heap0 ++ [root]).length = heap0.length + 1
    simp
  have hlenfin : (dropIter s).heap.length = heap0.length := by
    rw [hdropheap, List.length_dropLast, hlen1, hlen0]
    omega
  have hbits : ∀ i, i < heap0.length →
      (s1.heap.getD i defaultCell).mark = false ∧
      (s1.heap.getD i defaultCell).forwarding = false := by
    intro i hi
    constructor
    · cases hb : (s1.heap.getD i defaultCell).mark
      · rfl
      · exfalso
        have h1 := dropCells_mark_mono s.stack (s.with_stack []) i (hs1def ▸ hb)
        have h2 : (s.heap.getD i defaultCell).mark = true := h1
        have hmem := hinv.mark_entry i h2
        have h3 := dropCells_clears_mark s.stack (s.with_stack []) i
          (IterStackLoc.mk i IterStackLocTag.Iterable HeapOrStackTag.Heap) hmem rfl rfl
        rw [← hs1def] at h3
        rw [h3] at hb
        exact Bool.noConfusion hb
    · cases hb : (s1.heap.getD i defaultCell).forwarding
      · rfl
      · exfalso
        have h1 := dropCells_fwd_mono s.stack (s.with_stack []) i (hs1def ▸ hb)
        have h2 : (s.heap.getD i defaultCell).forwarding = true := h1
        obtain ⟨e2, rest2, hst2, hval, hho, _, _⟩ := hinv.fwd_entry i h2
        have hmem : e2 ∈ s.stack := by
          rw [hst2]
          exact List.mem_cons_self e2 rest2
        have h3 := dropCells_clears_fwd s.stack (s.with_stack []) i e2 hmem hho hval
        rw [← hs1def] at h3
        rw [h3] at hb
        exact Bool.noConfusion hb
  have hgetD : ∀ i, i < heap0.length →
      (dropIter s).heap.getD i defaultCell = s1.heap.getD i defaultCell := by
    intro i hi
    rw [hdropheap]
    apply getD_dropLast
    rw [hlen1, hlen0]
    simpa using hi
  refine ⟨hlenfin, ?_, ?_⟩
  · intro i
    by_cases hi : i < heap0.length
    · rw [hgetD i hi]
      exact hbits i hi
    · rw [getD_of_length_le]
      · exact ⟨rfl, rfl⟩
      · rw [hlenfin]
        exact Nat.le_of_not_lt hi
  · intro i hi
    rw [hgetD i hi]
    have hpay : (s1.heap.getD i defaultCell).payload = (heap0.getD i defaultCell).payload := by
      have h1 : (s1.heap.getD i defaultCell).payload =
          (s.heap.getD i defaultCell).payload := by
        rw [hs1def]
        exact dropCells_payload s.stack (s.with_stack []) i
      rw [h1, hinv.heap_payload i]
      show ((heap0 ++ [root]).getD i defaultCell).payload = _
      rw [getD_append_left heap0 [root] i defaultCell hi]
    have hcl := clean_getD heap0 hclean i
    exact cell_eq_of_parts _ _ hpay
      (by rw [(hbits i hi).1, hcl.1]) (by rw [(hbits i hi).2, hcl.2])

/-- Witness for the amended C1 statement: a concrete clean heap and root,
with zero next calls before the drop. -/
theorem c1_drop_restores_clean_heap_witness :
    CleanCells c3heap ∧
    ((dropIter (stackful_preorder_iter c3heap [] (cell (CellPayload.Str 0)))).heap.length =
        c3heap.length ∧
      (∀ i, ((dropIter (stackful_preorder_iter c3heap [] (cell
          (CellPayload.Str 0)))).heap.getD i defaultCell).mark = false ∧
        ((dropIter (stackful_preorder_iter c3heap [] (cell
          (CellPayload.Str 0)))).heap.getD i defaultCell).forwarding = false) ∧
      (∀ i, i < c3heap.length →
        (dropIter (stackful_preorder_iter c3heap [] (cell
          (CellPayload.Str 0)))).heap.getD i defaultCell = c3heap.getD i defaultCell)) :=
  ⟨by decide,
   c1_drop_restores_clean_heap c3heap [] (cell (CellPayload.Str 0)) (by decide) rfl rfl
     (stackful_preorder_iter c3heap [] (cell (CellPayload.Str 0)))
     Relation.ReflTransGen.refl⟩

theorem iterState_ext (a b : IterState) (h1 : a.heap = b.heap)
    (h2 : a.machine_stack = b.machine_stack) (h3 : a.stack = b.stack) (h4 : a.h = b.h) :
    a = b := by
  cases a
  cases b
  dsimp only at h1 h2 h3 h4
  subst h1
  subst h2
  subst h3
  subst h4
  rfl

theorem step_read_focus (s : IterState) (e : IterStackLoc) (rest : List IterStackLoc)
    (l2 : IterStackLoc) :
    (((s.with_stack rest).with_focus e).read_cell l2) = s.read_cell l2 := by
  rw [read_cell_eq_cellAt, read_cell_eq_cellAt, cellAt_with_focus, cellAt_with_stack]

theorem step_eq_done (s : IterState) (hstack : s.stack = []) : s.step = StepRes.done s := by
  unfold IterState.step
  rw [hstack]

theorem step_eq_pending (s : IterState) (e : IterStackLoc) (rest : List IterStackLoc)
    (hstack : s.stack = e :: rest) (hpd : e.is_pending_mark = true) :
    s.step = StepRes.cont ((((s.with_stack rest).push_if_unmarked e).push_stack
      (IterStackLoc.mark_loc e.value e.heap_or_stack)).forward_if_referent_marked e) := by
  unfold IterState.step
  rw [hstack]
  simp only [hpd, if_true]

theorem step_eq_fwd (s : IterState) (e : IterStackLoc) (rest : List IterStackLoc)
    (hstack : s.stack = e :: rest) (hpd2 : e.is_pending_mark = false)
    (hfw : (s.read_cell e).forwarding = true) :
    s.step = StepRes.yield (s.read_cell e)
      (((s.with_stack rest).with_focus e).set_forwarding_at e false) := by
  unfold IterState.step
  rw [hstack]
  simp only [hpd2, Bool.false_eq_true, if_false, step_read_focus, hfw, if_true]

theorem step_eq_clear (s : IterState) (e : IterStackLoc) (rest : List IterStackLoc)
    (hstack : s.stack = e :: rest) (hpd2 : e.is_pending_mark = false)
    (hfw2 : (s.read_cell e).forwarding = false)
    (hmk : ((s.read_cell e).mark && !e.is_marked) = true) :
    s.step = StepRes.cont (((s.with_stack rest).with_focus e).set_mark_at e false) := by
  unfold IterState.step
  rw [hstack]
  simp only [hpd2, Bool.false_eq_true, if_false, step_read_focus, hfw2, hmk, if_true]

theorem step_eq_str (s : IterState) (e : IterStackLoc) (rest : List IterStackLoc) (vh : Nat)
    (hstack : s.stack = e :: rest) (hpd2 : e.is_pending_mark = false)
    (hfw2 : (s.read_cell e).forwarding = false)
    (hmk2 : ((s.read_cell e).mark && !e.is_marked) = false)
    (hpl : (s.read_cell e).payload = CellPayload.Str vh) :
    s.step = StepRes.cont ((((s.with_stack rest).with_focus e).push_if_unmarked
      (IterStackLoc.iterable_loc vh HeapOrStackTag.Heap)).push_stack
      (IterStackLoc.mark_loc vh HeapOrStackTag.Heap)) := by
  unfold IterState.step
  rw [hstack]
  simp only [hpd2, Bool.false_eq_true, if_false, step_read_focus, hfw2, hmk2, hpl]

theorem step_eq_pstrloc (s : IterState) (e : IterStackLoc) (rest : List IterStackLoc) (vh : Nat)
    (hstack : s.stack = e :: rest) (hpd2 : e.is_pending_mark = false)
    (hfw2 : (s.read_cell e).forwarding = false)
    (hmk2 : ((s.read_cell e).mark && !e.is_marked) = false)
    (hpl : (s.read_cell e).payload = CellPayload.PStrLoc vh) :
    s.step = StepRes.cont ((((s.with_stack rest).with_focus e).push_if_unmarked
      (IterStackLoc.iterable_loc vh HeapOrStackTag.Heap)).push_stack
      (IterStackLoc.mark_loc vh HeapOrStackTag.Heap)) := by
  unfold IterState.step
  rw [hstack]
  simp only [hpd2, Bool.false_eq_true, if_false, step_read_focus, hfw2, hmk2, hpl]

theorem step_eq_lis (s : IterState) (e : IterStackLoc) (rest : List IterStackLoc) (vh : Nat)
    (hstack : s.stack = e :: rest) (hpd2 : e.is_pending_mark = false)
    (hfw2 : (s.read_cell e).forwarding = false)
    (hmk2 : ((s.read_cell e).mark && !e.is_marked) = false)
    (hpl : (s.read_cell e).payload = CellPayload.Lis vh) :
    s.step = StepRes.yield
      ((((((((s.with_stack rest).with_focus e).push_if_unmarked
          (IterStackLoc.iterable_loc vh HeapOrStackTag.Heap)).push_stack
          (IterStackLoc.pending_mark_loc (vh + 1) HeapOrStackTag.Heap)).push_stack
          (IterStackLoc.mark_loc vh HeapOrStackTag.Heap)).forward_if_referent_marked
          (IterStackLoc.iterable_loc vh HeapOrStackTag.Heap))).read_cell e)
      (((((((s.with_stack rest).with_focus e).push_if_unmarked
          (IterStackLoc.iterable_loc vh HeapOrStackTag.Heap)).push_stack
          (IterStackLoc.pending_mark_loc (vh + 1) HeapOrStackTag.Heap)).push_stack
          (IterStackLoc.mark_loc vh HeapOrStackTag.Heap)).forward_if_referent_marked
          (IterStackLoc.iterable_loc vh HeapOrStackTag.Heap))) := by
  unfold IterState.step
  rw [hstack]
  simp only [hpd2, Bool.false_eq_true, if_false, step_read_focus, hfw2, hmk2, hpl]

theorem step_eq_attrvar (s : IterState) (e : IterStackLoc) (rest : List IterStackLoc) (vh : Nat)
    (hstack : s.stack = e :: rest) (hpd2 : e.is_pending_mark = false)
    (hfw2 : (s.read_cell e).forwarding = false)
    (hmk2 : ((s.read_cell e).mark && !e.is_marked) = false)
    (hpl : (s.read_cell e).payload = CellPayload.AttrVar vh) :
    s.step = StepRes.cont (((((s.with_stack rest).with_focus e).push_if_unmarked
      (IterStackLoc.iterable_loc vh HeapOrStackTag.Heap)).push_stack
      (IterStackLoc.mark_loc vh HeapOrStackTag.Heap)).forward_if_referent_marked
      (IterStackLoc.iterable_loc vh HeapOrStackTag.Heap)) := by
  unfold IterState.step
  rw [hstack]
  simp only [hpd2, Bool.false_eq_true, if_false, step_read_focus, hfw2, hmk2, hpl]

theorem step_eq_var (s : IterState) (e : IterStackLoc) (rest : List IterStackLoc) (vh : Nat)
    (hstack : s.stack = e :: rest) (hpd2 : e.is_pending_mark = false)
    (hfw2 : (s.read_cell e).forwarding = false)
    (hmk2 : ((s.read_cell e).mark && !e.is_marked) = false)
    (hpl : (s.read_cell e).payload = CellPayload.Var vh) :
    s.step = StepRes.cont (((((s.with_stack rest).with_focus e).push_if_unmarked
      (IterStackLoc.iterable_loc vh HeapOrStackTag.Heap)).push_stack
      (IterStackLoc.mark_loc vh HeapOrStackTag.Heap)).forward_if_referent_marked
      (IterStackLoc.iterable_loc vh HeapOrStackTag.Heap)) := by
  unfold IterState.step
  rw [hstack]
  simp only [hpd2, Bool.false_eq_true, if_false, step_read_focus, hfw2, hmk2, hpl]

theorem step_eq_stackvar (s : IterState) (e : IterStackLoc) (rest : List IterStackLoc) (vs : Nat)
    (hstack : s.stack = e :: rest) (hpd2 : e.is_pending_mark = false)
    (hfw2 : (s.read_cell e).forwarding = false)
    (hmk2 : ((s.read_cell e).mark && !e.is_marked) = false)
    (hpl : (s.read_cell e).payload = CellPayload.StackVar vs) :
    s.step = StepRes.cont (((((s.with_stack rest).with_focus e).push_if_unmarked
      (IterStackLoc.iterable_loc vs HeapOrStackTag.Stack)).push_stack
      (IterStackLoc.mark_loc vs HeapOrStackTag.Stack)).forward_if_referent_marked
      (IterStackLoc.iterable_loc vs HeapOrStackTag.Stack)) := by
  unfold IterState.step
  rw [hstack]
  simp only [hpd2, Bool.false_eq_true, if_false, step_read_focus, hfw2, hmk2, hpl]

theorem step_eq_pstroffset (s : IterState) (e : IterStackLoc) (rest : List IterStackLoc)
    (offset : Nat)
    (hstack : s.stack = e :: rest) (hpd2 : e.is_pending_mark = false)
    (hfw2 : (s.read_cell e).forwarding = false)
    (hmk2 : ((s.read_cell e).mark && !e.is_marked) = false)
    (hpl : (s.read_cell e).payload = CellPayload.PStrOffset offset) :
    s.step = StepRes.yield
      (((((s.with_stack rest).with_focus e).push_if_unmarked
          (IterStackLoc.iterable_loc offset HeapOrStackTag.Heap)).push_stack
          (IterStackLoc.iterable_loc (e.value + 1) HeapOrStackTag.Heap)).read_cell e)
      ((((s.with_stack rest).with_focus e).push_if_unmarked
          (IterStackLoc.iterable_loc offset HeapOrStackTag.Heap)).push_stack
          (IterStackLoc.iterable_loc (e.value + 1) HeapOrStackTag.Heap)) := by
  unfold IterState.step
  rw [hstack]
  simp only [hpd2, Bool.false_eq_true, if_false, step_read_focus, hfw2, hmk2, hpl]

theorem step_eq_pstr (s : IterState) (e : IterStackLoc) (rest : List IterStackLoc) (seg : Nat)
    (hstack : s.stack = e :: rest) (hpd2 : e.is_pending_mark = false)
    (hfw2 : (s.read_cell e).forwarding = false)
    (hmk2 : ((s.read_cell e).mark && !e.is_marked) = false)
    (hpl : (s.read_cell e).payload = CellPayload.PStr seg) :
    s.step = StepRes.yield
      ((((((s.with_stack rest).with_focus e).push_if_unmarked
          (IterStackLoc.iterable_loc e.value HeapOrStackTag.Heap)).push_stack
          (IterStackLoc.iterable_loc (e.value + 1) HeapOrStackTag.Heap)).forward_if_referent_marked
          (IterStackLoc.iterable_loc (e.value + 1) HeapOrStackTag.Heap)).read_cell e)
      (((((s.with_stack rest).with_focus e).push_if_unmarked
          (IterStackLoc.iterable_loc e.value HeapOrStackTag.Heap)).push_stack
          (IterStackLoc.iterable_loc (e.value + 1) HeapOrStackTag.Heap)).forward_if_referent_marked
          (IterStackLoc.iterable_loc (e.value + 1) HeapOrStackTag.Heap)) := by
  unfold IterState.step
  rw [hstack]
  simp only [hpd2, Bool.false_eq_true, if_false, step_read_focus, hfw2, hmk2, hpl]

theorem step_eq_atom_pos (s : IterState) (e : IterStackLoc) (rest : List IterStackLoc)
    (name ar : Nat)
    (hstack : s.stack = e :: rest) (hpd2 : e.is_pending_mark = false)
    (hfw2 : (s.read_cell e).forwarding = false)
    (hmk2 : ((s.read_cell e).mark && !e.is_marked) = false)
    (hpl : (s.read_cell e).payload = CellPayload.Atom name ar) (har : 0 < ar) :
    s.step = StepRes.yield
      (((((((List.range' (e.value + 2) (ar - 1)).reverse).foldl
          (fun st i => st.push_stack (IterStackLoc.pending_mark_loc i HeapOrStackTag.Heap))
          ((s.with_stack rest).with_focus e)).push_if_unmarked
          (IterStackLoc.iterable_loc (e.value + 1) HeapOrStackTag.Heap)).push_stack
          (IterStackLoc.mark_loc (e.value + 1) HeapOrStackTag.Heap)).forward_if_referent_marked
          (IterStackLoc.iterable_loc (e.value + 1) HeapOrStackTag.Heap)).read_cell e)
      ((((((List.range' (e.value + 2) (ar - 1)).reverse).foldl
          (fun st i => st.push_stack (IterStackLoc.pending_mark_loc i HeapOrStackTag.Heap))
          ((s.with_stack rest).with_focus e)).push_if_unmarked
          (IterStackLoc.iterable_loc (e.value + 1) HeapOrStackTag.Heap)).push_stack
          (IterStackLoc.mark_loc (e.value + 1) HeapOrStackTag.Heap)).forward_if_referent_marked
          (IterStackLoc.iterable_loc (e.value + 1) HeapOrStackTag.Heap)) := by
  unfold IterState.step
  rw [hstack]
  simp only [hpd2, Bool.false_eq_true, if_false, step_read_focus, hfw2, hmk2, hpl, har, if_pos]

theorem step_eq_atom_zero (s : IterState) (e : IterStackLoc) (rest : List IterStackLoc)
    (name : Nat)
    (hstack : s.stack = e :: rest) (hpd2 : e.is_pending_mark = false)
    (hfw2 : (s.read_cell e).forwarding = false)
    (hmk2 : ((s.read_cell e).mark && !e.is_marked) = false)
    (hpl : (s.read_cell e).payload = CellPayload.Atom name 0) :
    s.step = StepRes.yield (s.read_cell e) ((s.with_stack rest).with_focus e) := by
  have har : ¬(0 < 0) := by decide
  unfold IterState.step
  rw [hstack]
  simp only [hpd2, Bool.false_eq_true, if_false, step_read_focus, hfw2, hmk2, hpl, har, if_false]
  rfl

theorem step_eq_fixnum (s : IterState) (e : IterStackLoc) (rest : List IterStackLoc) (n : Int)
    (hstack : s.stack = e :: rest) (hpd2 : e.is_pending_mark = false)
    (hfw2 : (s.read_cell e).forwarding = false)
    (hmk2 : ((s.read_cell e).mark && !e.is_marked) = false)
    (hpl : (s.read_cell e).payload = CellPayload.Fixnum n) :
    s.step = StepRes.yield (s.read_cell e) ((s.with_stack rest).with_focus e) := by
  unfold IterState.step
  rw [hstack]
  simp only [hpd2, Bool.false_eq_true, if_false, step_read_focus, hfw2, hmk2, hpl]

theorem step_eq_emptylist (s : IterState) (e : IterStackLoc) (rest : List IterStackLoc)
    (hstack : s.stack = e :: rest) (hpd2 : e.is_pending_mark = false)
    (hfw2 : (s.read_cell e).forwarding = false)
    (hmk2 : ((s.read_cell e).mark && !e.is_marked) = false)
    (hpl : (s.read_cell e).payload = CellPayload.EmptyList) :
    s.step = StepRes.yield (s.read_cell e) ((s.with_stack rest).with_focus e) := by
  unfold IterState.step
  rw [hstack]
  simp only [hpd2, Bool.false_eq_true, if_false, step_read_focus, hfw2, hmk2, hpl]

theorem ext_read (B : List IterStackLoc) (s t : IterState) (hx : StackExt B s t)
    (loc : IterStackLoc) : t.read_cell loc = s.read_cell loc := by
  rw [read_cell_eq_cellAt, read_cell_eq_cellAt]
  exact cellAt_eq_of_heap_ms t s hx.1 hx.2.1 loc.heap_or_stack loc.value

theorem ext_push_stack (B : List IterStackLoc) (s t : IterState) (hx : StackExt B s t)
    (l : IterStackLoc) : StackExt B (s.push_stack l) (t.push_stack l) := by
  obtain ⟨h1, h2, h3, h4⟩ := hx
  refine ⟨h1, h2, h3, ?_⟩
  show l :: t.stack = (l :: s.stack) ++ B
  rw [h4]
  rfl

theorem ext_with_focus (B : List IterStackLoc) (s t : IterState) (hx : StackExt B s t)
    (l : IterStackLoc) : StackExt B (s.with_focus l) (t.with_focus l) :=
  ⟨hx.1, hx.2.1, rfl, hx.2.2.2⟩

theorem ext_base (B : List IterStackLoc) (s t : IterState) (hx : StackExt B s t)
    (rest : List IterStackLoc) :
    StackExt B (s.with_stack rest) (t.with_stack (rest ++ B)) :=
  ⟨hx.1, hx.2.1, hx.2.2.1, rfl⟩

theorem ext_modify (B : List IterStackLoc) (s t : IterState) (hx : StackExt B s t)
    (loc : IterStackLoc) (f : HeapCellValue → HeapCellValue) :
    StackExt B (s.modify_cell loc f) (t.modify_cell loc f) := by
  obtain ⟨h1, h2, h3, h4⟩ := hx
  obtain ⟨v, tg, ho⟩ := loc
  cases ho
  case Heap =>
    refine ⟨?_, h2, h3, h4⟩
    show t.heap.set v (f (t.heap.getD v defaultCell)) =
      s.heap.set v (f (s.heap.getD v defaultCell))
    rw [h1]
  case Stack =>
    refine ⟨h1, ?_, h3, h4⟩
    show t.machine_stack.set v (f (t.machine_stack.getD v defaultCell)) =
      s.machine_stack.set v (f (s.machine_stack.getD v defaultCell))
    rw [h2]

theorem ext_set_mark (B : List IterStackLoc) (s t : IterState) (hx : StackExt B s t)
    (loc : IterStackLoc) (b : Bool) :
    StackExt B (s.set_mark_at loc b) (t.set_mark_at loc b) :=
  ext_modify B s t hx loc (fun c => c.set_mark_bit b)

theorem ext_set_fwd (B : List IterStackLoc) (s t : IterState) (hx : StackExt B s t)
    (loc : IterStackLoc) (b : Bool) :
    StackExt B (s.set_forwarding_at loc b) (t.set_forwarding_at loc b) :=
  ext_modify B s t hx loc (fun c => c.set_forwarding_bit b)

theorem ext_piu (B : List IterStackLoc) (s t : IterState) (hx : StackExt B s t)
    (loc : IterStackLoc) : StackExt B (s.push_if_unmarked loc) (t.push_if_unmarked loc) := by
  have hr : t.read_cell loc = s.read_cell loc := ext_read B s t hx loc
  rcases piu_spec s loc with ⟨hm, heq⟩ | ⟨hm, heq⟩ <;>
    rcases piu_spec t loc with ⟨hm2, heq2⟩ | ⟨hm2, heq2⟩
  · rw [heq, heq2]
    exact hx
  · rw [hr, hm] at hm2
    exact Bool.noConfusion hm2
  · rw [hr, hm] at hm2
    exact Bool.noConfusion hm2
  · rw [heq, heq2]
    exact ext_push_stack B _ _ (ext_set_mark B s t hx loc true) _

theorem ext_referent (B : List IterStackLoc) (s t : IterState) (hx : StackExt B s t)
    (loc : IterStackLoc) : referent_marked t loc = referent_marked s loc := by
  unfold referent_marked
  rw [ext_read B s t hx loc, hx.1, hx.2.1]

theorem ext_fc (B : List IterStackLoc) (s t : IterState) (hx : StackExt B s t)
    (loc : IterStackLoc) :
    StackExt B (s.forward_if_referent_marked loc) (t.forward_if_referent_marked loc) := by
  unfold IterState.forward_if_referent_marked
  rw [ext_referent B s t hx loc]
  cases hb : referent_marked s loc
  · simp only [hb, Bool.false_eq_true, if_false]
    exact hx
  · simp only [hb, if_true]
    exact ext_set_fwd B s t hx loc true

theorem ext_foldl (B : List IterStackLoc) (L : List Nat) (s t : IterState)
    (hx : StackExt B s t) :
    StackExt B
      (L.foldl (fun st i => st.push_stack
        (IterStackLoc.pending_mark_loc i HeapOrStackTag.Heap)) s)
      (L.foldl (fun st i => st.push_stack
        (IterStackLoc.pending_mark_loc i HeapOrStackTag.Heap)) t) := by
  induction L generalizing s t with
  | nil => exact hx
  | cons a l ih =>
    simp only [List.foldl_cons]
    exact ih _ _ (ext_push_stack B s t hx _)

/-- The follow-loop step treats the work list purely as a stack: appending a
fixed suffix below the live entries commutes with one step, yielding the
same cell (if any) and preserving the extension relation. -/
theorem step_append (B : List IterStackLoc) (s t : IterState) (hx : StackExt B s t)
    (e : IterStackLoc) (rest : List IterStackLoc) (hstack : s.stack = e :: rest) :
    (∃ c s1 t1, s.step = StepRes.yield c s1 ∧ t.step = StepRes.yield c t1 ∧ StackExt B s1 t1) ∨
    (∃ s1 t1, s.step = StepRes.cont s1 ∧ t.step = StepRes.cont t1 ∧ StackExt B s1 t1) := by
  have htstack : t.stack = e :: (rest ++ B) := by
    rw [hx.2.2.2, hstack]
    rfl
  have hreadt : ∀ loc, t.read_cell loc = s.read_cell loc := ext_read B s t hx
  have hbase0 : StackExt B (s.with_stack rest) (t.with_stack (rest ++ B)) :=
    ext_base B s t hx rest
  have hbase : StackExt B ((s.with_stack rest).with_focus e)
      ((t.with_stack (rest ++ B)).with_focus e) :=
    ext_with_focus B _ _ hbase0 e
  by_cases hpd : e.is_pending_mark = true
  · right
    refine ⟨_, _, step_eq_pending s e rest hstack hpd,
      step_eq_pending t e (rest ++ B) htstack hpd, ?_⟩
    exact ext_fc B _ _ (ext_push_stack B _ _ (ext_piu B _ _ hbase0 e)
      (IterStackLoc.mark_loc e.value e.heap_or_stack)) e
  · have hpd2 : e.is_pending_mark = false := by
      cases hb : e.is_pending_mark
      · rfl
      · exact absurd hb hpd
    by_cases hfw : (s.read_cell e).forwarding = true
    · left
      have hfwT : (t.read_cell e).forwarding = true := by
        rw [hreadt]
        exact hfw
      have hstepT := step_eq_fwd t e (rest ++ B) htstack hpd2 hfwT
      rw [hreadt] at hstepT
      exact ⟨_, _, _, step_eq_fwd s e rest hstack hpd2 hfw, hstepT,
        ext_set_fwd B _ _ hbase e false⟩
    · have hfw2 : (s.read_cell e).forwarding = false := by
        cases hb : (s.read_cell e).forwarding
        · rfl
        · exact absurd hb hfw
      have hfwT : (t.read_cell e).forwarding = false := by
        rw [hreadt]
        exact hfw2
      by_cases hmk : ((s.read_cell e).mark && !e.is_marked) = true
      · right
        have hmkT : ((t.read_cell e).mark && !e.is_marked) = true := by
          rw [hreadt]
          exact hmk
        exact ⟨_, _, step_eq_clear s e rest hstack hpd2 hfw2 hmk,
          step_eq_clear t e (rest ++ B) htstack hpd2 hfwT hmkT,
          ext_set_mark B _ _ hbase e false⟩
      · have hmk2 : ((s.read_cell e).mark && !e.is_marked) = false := by
          cases hb : ((s.read_cell e).mark && !e.is_marked)
          · rfl
          · exact absurd hb hmk
        have hmkT : ((t.read_cell e).mark && !e.is_marked) = false := by
          rw [hreadt]
          exact hmk2
        cases hpl : (s.read_cell e).payload with
        | Str vh =>
          right
          have hplT : (t.read_cell e).payload = CellPayload.Str vh := by
            rw [hreadt]
            exact hpl
          exact ⟨_, _, step_eq_str s e rest vh hstack hpd2 hfw2 hmk2 hpl,
            step_eq_str t e (rest ++ B) vh htstack hpd2 hfwT hmkT hplT,
            ext_push_stack B _ _ (ext_piu B _ _ hbase
              (IterStackLoc.iterable_loc vh HeapOrStackTag.Heap))
              (IterStackLoc.mark_loc vh HeapOrStackTag.Heap)⟩
        | PStrLoc vh =>
          right
          have hplT : (t.read_cell e).payload = CellPayload.PStrLoc vh := by
            rw [hreadt]
            exact hpl
          exact ⟨_, _, step_eq_pstrloc s e rest vh hstack hpd2 hfw2 hmk2 hpl,
            step_eq_pstrloc t e (rest ++ B) vh htstack hpd2 hfwT hmkT hplT,
            ext_push_stack B _ _ (ext_piu B _ _ hbase
              (IterStackLoc.iterable_loc vh HeapOrStackTag.Heap))
              (IterStackLoc.mark_loc vh HeapOrStackTag.Heap)⟩
        | Lis vh =>
          left
          have hplT : (t.read_cell e).payload = CellPayload.Lis vh := by
            rw [hreadt]
            exact hpl
          have hx5 := ext_fc B _ _ (ext_push_stack B _ _ (ext_push_stack B _ _
            (ext_piu B _ _ hbase (IterStackLoc.iterable_loc vh HeapOrStackTag.Heap))
            (IterStackLoc.pending_mark_loc (vh + 1) HeapOrStackTag.Heap))
            (IterStackLoc.mark_loc vh HeapOrStackTag.Heap))
            (IterStackLoc.iterable_loc vh HeapOrStackTag.Heap)
          have hstepT := step_eq_lis t e (rest ++ B) vh htstack hpd2 hfwT hmkT hplT
          rw [ext_read B _ _ hx5 e] at hstepT
          exact ⟨_, _, _, step_eq_lis s e rest vh hstack hpd2 hfw2 hmk2 hpl, hstepT, hx5⟩
        | AttrVar vh =>
          right
          have hplT : (t.read_cell e).payload = CellPayload.AttrVar vh := by
            rw [hreadt]
            exact hpl
          exact ⟨_, _, step_eq_attrvar s e rest vh hstack hpd2 hfw2 hmk2 hpl,
            step_eq_attrvar t e (rest ++ B) vh htstack hpd2 hfwT hmkT hplT,
            ext_fc B _ _ (ext_push_stack B _ _ (ext_piu B _ _ hbase
              (IterStackLoc.iterable_loc vh HeapOrStackTag.Heap))
              (IterStackLoc.mark_loc vh HeapOrStackTag.Heap))
              (IterStackLoc.iterable_loc vh HeapOrStackTag.Heap)⟩
        | Var vh =>
          right
          have hplT : (t.read_cell e).payload = CellPayload.Var vh := by
            rw [hreadt]
            exact hpl
          exact ⟨_, _, step_eq_var s e rest vh hstack hpd2 hfw2 hmk2 hpl,
            step_eq_var t e (rest ++ B) vh htstack hpd2 hfwT hmkT hplT,
            ext_fc B _ _ (ext_push_stack B _ _ (ext_piu B _ _ hbase
              (IterStackLoc.iterable_loc vh HeapOrStackTag.Heap))
              (IterStackLoc.mark_loc vh HeapOrStackTag.Heap))
              (IterStackLoc.iterable_loc vh HeapOrStackTag.Heap)⟩
        | StackVar vs =>
          right
          have hplT : (t.read_cell e).payload = CellPayload.StackVar vs := by
            rw [hreadt]
            exact hpl
          exact ⟨_, _, step_eq_stackvar s e rest vs hstack hpd2 hfw2 hmk2 hpl,
            step_eq_stackvar t e (rest ++ B) vs htstack hpd2 hfwT hmkT hplT,
            ext_fc B _ _ (ext_push_stack B _ _ (ext_piu B _ _ hbase
              (IterStackLoc.iterable_loc vs HeapOrStackTag.Stack))
              (IterStackLoc.mark_loc vs HeapOrStackTag.Stack))
              (IterStackLoc.iterable_loc vs HeapOrStackTag.Stack)⟩
        | PStrOffset offset =>
          left
          have hplT : (t.read_cell e).payload = CellPayload.PStrOffset offset := by
            rw [hreadt]
            exact hpl
          have hx3 := ext_push_stack B _ _ (ext_piu B _ _ hbase
            (IterStackLoc.iterable_loc offset HeapOrStackTag.Heap))
            (IterStackLoc.iterable_loc (e.value + 1) HeapOrStackTag.Heap)
          have hstepT := step_eq_pstroffset t e (rest ++ B) offset htstack hpd2 hfwT hmkT hplT
          rw [ext_read B _ _ hx3 e] at hstepT
          exact ⟨_, _, _, step_eq_pstroffset s e rest offset hstack hpd2 hfw2 hmk2 hpl,
            hstepT, hx3⟩
        | PStr seg =>
          left
          have hplT : (t.read_cell e).payload = CellPayload.PStr seg := by
            rw [hreadt]
            exact hpl
          have hx4 := ext_fc B _ _ (ext_push_stack B _ _ (ext_piu B _ _ hbase
            (IterStackLoc.iterable_loc e.value HeapOrStackTag.Heap))
            (IterStackLoc.iterable_loc (e.value + 1) HeapOrStackTag.Heap))
            (IterStackLoc.iterable_loc (e.value + 1) HeapOrStackTag.Heap)
          have hstepT := step_eq_pstr t e (rest ++ B) seg htstack hpd2 hfwT hmkT hplT
          rw [ext_read B _ _ hx4 e] at hstepT
          exact ⟨_, _, _, step_eq_pstr s e rest seg hstack hpd2 hfw2 hmk2 hpl, hstepT, hx4⟩
        | Atom name ar =>
          left
          have hplT : (t.read_cell e).payload = CellPayload.Atom name ar := by
            rw [hreadt]
            exact hpl
          by_cases har : 0 < ar
          · have hxA := ext_foldl B ((List.range' (e.value + 2) (ar - 1)).reverse) _ _ hbase
            have hx5 := ext_fc B _ _ (ext_push_stack B _ _ (ext_piu B _ _ hxA
              (IterStackLoc.iterable_loc (e.value + 1) HeapOrStackTag.Heap))
              (IterStackLoc.mark_loc (e.value + 1) HeapOrStackTag.Heap))
              (IterStackLoc.iterable_loc (e.value + 1) HeapOrStackTag.Heap)
            have hstepT := step_eq_atom_pos t e (rest ++ B) name ar htstack hpd2 hfwT hmkT
              hplT har
            rw [ext_read B _ _ hx5 e] at hstepT
            exact ⟨_, _, _, step_eq_atom_pos s e rest name ar hstack hpd2 hfw2 hmk2 hpl har,
              hstepT, hx5⟩
          · have har0 : ar = 0 := Nat.eq_zero_of_not_pos har
            subst har0
            have hstepT := step_eq_atom_zero t e (rest ++ B) name htstack hpd2 hfwT hmkT hplT
            rw [hreadt] at hstepT
            exact ⟨_, _, _, step_eq_atom_zero s e rest name hstack hpd2 hfw2 hmk2 hpl,
              hstepT, hbase⟩
        | Fixnum n =>
          left
          have hplT : (t.read_cell e).payload = CellPayload.Fixnum n := by
            rw [hreadt]
            exact hpl
          have hstepT := step_eq_fixnum t e (rest ++ B) n htstack hpd2 hfwT hmkT hplT
          rw [hreadt] at hstepT
          exact ⟨_, _, _, step_eq_fixnum s e rest n hstack hpd2 hfw2 hmk2 hpl, hstepT, hbase⟩
        | EmptyList =>
          left
          have hplT : (t.read_cell e).payload = CellPayload.EmptyList := by
            rw [hreadt]
            exact hpl
          have hstepT := step_eq_emptylist t e (rest ++ B) htstack hpd2 hfwT hmkT hplT
          rw [hreadt] at hstepT
          exact ⟨_, _, _, step_eq_emptylist s e rest hstack hpd2 hfw2 hmk2 hpl, hstepT, hbase⟩

theorem runIter_succ (n : Nat) (s : IterState) :
    runIter (n + 1) s =
      match s.step with
      | StepRes.done s1 => some ([], s1)
      | StepRes.cont s1 => runIter n s1
      | StepRes.yield c s1 =>
        match runIter n s1 with
        | some (cs, sf) => some (c :: cs, sf)
        | none => none := rfl

theorem runIter_cont (n : Nat) (s s1 : IterState) (hstep : s.step = StepRes.cont s1) :
    runIter (n + 1) s = runIter n s1 := by
  rw [runIter_succ, hstep]

theorem runIter_yield (n : Nat) (s s1 : IterState) (c : HeapCellValue)
    (hstep : s.step = StepRes.yield c s1) :
    runIter (n + 1) s =
      match runIter n s1 with
      | some (cs, sf) => some (c :: cs, sf)
      | none => none := by
  rw [runIter_succ, hstep]

/-- Work lists compose: a completed run over the work list of s, followed by
a completed run over the appended suffix B started from the state the first
run left behind, is a completed run over the extended work list, and its
yield stream is the concatenation of the two yield streams. -/
theorem runIter_frame (f : Nat) :
    ∀ (B : List IterStackLoc) (s t : IterState), StackExt B s t →
    ∀ (ys : List HeapCellValue) (sfin : IterState), runIter f s = some (ys, sfin) →
    ∀ (g : Nat) (ys2 : List HeapCellValue) (tfin : IterState),
      runIter g ⟨sfin.heap, sfin.machine_stack, B, sfin.h⟩ = some (ys2, tfin) →
    ∃ F, runIter F t = some (ys ++ ys2, tfin) := by
  induction f with
  | zero =>
    intro B s t hx ys sfin hrun
    exact Option.noConfusion hrun
  | succ n ih =>
    intro B s t hx ys sfin hrun g ys2 tfin hrunB
    cases hstack : s.stack with
    | nil =>
      rw [runIter_succ, step_eq_done s hstack] at hrun
      have hrun2 : some (([] : List HeapCellValue), s) = some (ys, sfin) := hrun
      simp only [Option.some.injEq, Prod.mk.injEq] at hrun2
      obtain ⟨hys, hsf⟩ := hrun2
      subst hsf
      have ht : t = ⟨s.heap, s.machine_stack, B, s.h⟩ := by
        refine iterState_ext t _ hx.1 hx.2.1 ?_ hx.2.2.1
        rw [hx.2.2.2, hstack]
        rfl
      refine ⟨g, ?_⟩
      rw [ht, ← hys]
      rw [List.nil_append]
      exact hrunB
    | cons e rest =>
      rcases step_append B s t hx e rest hstack with
        ⟨c, s1, t1, hstepS, hstepT, hx1⟩ | ⟨s1, t1, hstepS, hstepT, hx1⟩
      · rw [runIter_yield n s s1 c hstepS] at hrun
        cases hr1 : runIter n s1 with
        | none =>
          rw [hr1] at hrun
          exact Option.noConfusion hrun
        | some p =>
          obtain ⟨cs, sfmid⟩ := p
          rw [hr1] at hrun
          have hrun2 : some (c :: cs, sfmid) = some (ys, sfin) := hrun
          simp only [Option.some.injEq, Prod.mk.injEq] at hrun2
          obtain ⟨hys, hsf⟩ := hrun2
          subst hsf
          obtain ⟨F, hF⟩ := ih B s1 t1 hx1 cs sfmid hr1 g ys2 tfin hrunB
          refine ⟨F + 1, ?_⟩
          rw [runIter_yield F t t1 c hstepT, hF, ← hys]
          rfl
      · rw [runIter_cont n s s1 hstepS] at hrun
        obtain ⟨F, hF⟩ := ih B s1 t1 hx1 ys sfin hrun g ys2 tfin hrunB
        refine ⟨F + 1, ?_⟩
        rw [runIter_cont F t t1 hstepT]
        exact hF

theorem flatten_map_singleton {α β : Type} (f : α → β) (L : List α) :
    (L.map (fun a => [f a])).flatten = L.map f := by
  induction L with
  | nil => rfl
  | cons a l ih =>
    show [f a] ++ (l.map (fun a => [f a])).flatten = f a :: l.map f
    rw [ih]
    rfl

/-- Segment-wise execution soundness: when the work list is the
concatenation of segments each of which runs to completion, the whole work
list runs to completion and yields the segments' yield streams concatenated
in segment order. -/
theorem segRuns_flatten (H MS : List HeapCellValue) (h0 : IterStackLoc)
    (segs : List (List IterStackLoc)) (yss : List (List HeapCellValue)) (sf : IterState)
    (hsr : SegRuns H MS h0 segs yss sf) :
    ∃ F, runIter F ⟨H, MS, segs.flatten, h0⟩ = some (yss.flatten, sf) := by
  induction hsr with
  | nil H2 MS2 h2 => exact ⟨1, rfl⟩
  | cons H2 MS2 h2 A segs2 ys yss2 f t sfin hrun hrest ih =>
    obtain ⟨G, hG⟩ := ih
    have hx : StackExt segs2.flatten (IterState.mk H2 MS2 A h2)
        (IterState.mk H2 MS2 (A ++ segs2.flatten) h2) := ⟨rfl, rfl, rfl, rfl⟩
    obtain ⟨F, hF⟩ := runIter_frame f segs2.flatten _ _ hx ys t hrun G yss2.flatten sfin hG
    refine ⟨F, ?_⟩
    show runIter F ⟨H2, MS2, A ++ segs2.flatten, h2⟩ = some (ys ++ yss2.flatten, sfin)
    exact hF

/-- C6 as amended: whenever the iterator dispatches an unforwarded
structure header Atom(name, arity) with arity > 0 at position l, it pushes
pending_mark(Heap, l+k) for k = arity down to 2 in that order (so the entry
for l+2 ends nearest the top), then, only if the first argument cell at
l+1 is unmarked, marks it and pushes iterable(Heap, l+1); in both cases it
then pushes marked(Heap, l+1) on top, applies forward-if-referent-marked to
l+1, and yields the header. Consequently the arguments are yielded
left-to-right: the work list left behind is exactly the concatenation of
per-argument segments — the Marked (and optional Iterable) pair for
argument 1, then the single PendingMark entry of each argument 2..arity in
ascending order, then the prior work list — and whenever these segments
each run to completion, the continued traversal yields exactly their yield
streams concatenated in that order: every cell of argument 1's subtree
before every cell of argument 2's, and so on. -/
theorem c6_atom_dispatch_shape (s : IterState) (e : IterStackLoc)
    (rest : List IterStackLoc) (name ar : Nat)
    (hstack : s.stack = e :: rest)
    (hpend : e.tag ≠ IterStackLocTag.PendingMark)
    (hcell : (s.read_cell e).payload = CellPayload.Atom name ar)
    (hfwd : (s.read_cell e).forwarding = false)
    (hdisp : (s.read_cell e).mark = false ∨ e.tag = IterStackLocTag.Marked)
    (har : 0 < ar) :
    ∃ y s5, s.step = StepRes.yield y s5 ∧
      y.payload = CellPayload.Atom name ar ∧
      s5.stack = IterStackLoc.mark_loc (e.value + 1) HeapOrStackTag.Heap ::
        ((if (s.heap.getD (e.value + 1) defaultCell).mark then ([] : List IterStackLoc)
          else [IterStackLoc.iterable_loc (e.value + 1) HeapOrStackTag.Heap]) ++
         ((List.range' (e.value + 2) (ar - 1)).map
           (fun i => IterStackLoc.pending_mark_loc i HeapOrStackTag.Heap)) ++ rest) ∧
      (e.value + 1 < s.heap.length → (s5.heap.getD (e.value + 1) defaultCell).mark = true) ∧
      (∀ yss sf, SegRuns s5.heap s5.machine_stack s5.h
          ((IterStackLoc.mark_loc (e.value + 1) HeapOrStackTag.Heap ::
            (if (s.heap.getD (e.value + 1) defaultCell).mark then ([] : List IterStackLoc)
             else [IterStackLoc.iterable_loc (e.value + 1) HeapOrStackTag.Heap])) ::
           (((List.range' (e.value + 2) (ar - 1)).map
             (fun i => [IterStackLoc.pending_mark_loc i HeapOrStackTag.Heap])) ++
            [rest]))
          yss sf →
        ∃ F, runIter F s5 = some (yss.flatten, sf)) := by
  have hpend2 : e.is_pending_mark = false := by
    unfold IterStackLoc.is_pending_mark
    cases htg : e.tag
    · rfl
    · rfl
    · exact absurd htg hpend
  have hguard : ((s.read_cell e).mark && !e.is_marked) = false := by
    rcases hdisp with hm | ht
    · rw [hm]
      rfl
    · have : e.is_marked = true := by
        unfold IterStackLoc.is_marked
        rw [ht]
      rw [this]
      simp
  have hread : ∀ st l2, (((s.with_stack st).with_focus l2).read_cell e) = s.read_cell e := by
    intro st l2
    rw [read_cell_eq_cellAt, read_cell_eq_cellAt, cellAt_with_focus, cellAt_with_stack]
  have hstep : s.step =
      (let s1 := (s.with_stack rest).with_focus e
       let l := e.value
       let s2 := ((List.range' (l + 2) (ar - 1)).reverse).foldl
         (fun st i => st.push_stack (IterStackLoc.pending_mark_loc i HeapOrStackTag.Heap)) s1
       let first_arg_loc := IterStackLoc.iterable_loc (l + 1) HeapOrStackTag.Heap
       let s3 := s2.push_if_unmarked first_arg_loc
       let s4 := s3.push_stack (IterStackLoc.mark_loc (l + 1) HeapOrStackTag.Heap)
       let s5 := s4.forward_if_referent_marked first_arg_loc
       StepRes.yield (s5.read_cell e) s5) := by
    unfold IterState.step
    rw [hstack]
    simp only [hpend2, Bool.false_eq_true, if_false, hread, hfwd, hguard, hcell, har, if_pos]
  set s1 := (s.with_stack rest).with_focus e with hs1def
  set A := ((List.range' (e.value + 2) (ar - 1)).reverse).foldl
    (fun st i => st.push_stack (IterStackLoc.pending_mark_loc i HeapOrStackTag.Heap)) s1 with hAdef
  set first := IterStackLoc.iterable_loc (e.value + 1) HeapOrStackTag.Heap with hfdef
  set s3 := A.push_if_unmarked first with hs3def
  set s4 := s3.push_stack (IterStackLoc.mark_loc (e.value + 1) HeapOrStackTag.Heap) with hs4def
  set s5 := s4.forward_if_referent_marked first with hs5def
  have hstep2 : s.step = StepRes.yield (s5.read_cell e) s5 := hstep
  have hA2 : A = s1.with_stack
      (((List.range' (e.value + 2) (ar - 1)).map
        (fun i => IterStackLoc.pending_mark_loc i HeapOrStackTag.Heap)) ++ rest) := by
    rw [hAdef, foldl_push_stack, List.reverse_reverse]
    rfl
  have hcellA : ∀ hs i, cellAt A hs i = cellAt s hs i := by
    intro hs i
    rw [hA2, cellAt_with_stack, hs1def, cellAt_with_focus, cellAt_with_stack]
  have hlenA : ∀ hs, lenAt A hs = lenAt s hs := by
    intro hs
    rw [hA2, lenAt_with_stack, hs1def, lenAt_with_focus, lenAt_with_stack]
  have hAstack : A.stack =
      ((List.range' (e.value + 2) (ar - 1)).map
        (fun i => IterStackLoc.pending_mark_loc i HeapOrStackTag.Heap)) ++ rest := by
    rw [hA2]
    rfl
  have hfirstread : A.read_cell first = cellAt s HeapOrStackTag.Heap (e.value + 1) := by
    rw [read_cell_eq_cellAt]
    exact hcellA _ _
  have hstk5 : s5.stack = IterStackLoc.mark_loc (e.value + 1) HeapOrStackTag.Heap ::
      ((if (s.heap.getD (e.value + 1) defaultCell).mark then ([] : List IterStackLoc)
        else [IterStackLoc.iterable_loc (e.value + 1) HeapOrStackTag.Heap]) ++
       ((List.range' (e.value + 2) (ar - 1)).map
         (fun i => IterStackLoc.pending_mark_loc i HeapOrStackTag.Heap)) ++ rest) := by
    have h5 : s5.stack = s4.stack := by
      rw [hs5def]
      exact fc_stack s4 first
    have h4 : s4.stack = IterStackLoc.mark_loc (e.value + 1) HeapOrStackTag.Heap :: s3.stack := by
      rw [hs4def]
      rfl
    have h3 : s3.stack =
        (if (s.heap.getD (e.value + 1) defaultCell).mark then ([] : List IterStackLoc)
         else [first]) ++ A.stack := by
      rw [hs3def]
      unfold IterState.push_if_unmarked
      rw [hfirstread]
      by_cases hm : (s.heap.getD (e.value + 1) defaultCell).mark = true
      · have hm2 : (cellAt s HeapOrStackTag.Heap (e.value + 1)).mark = true := hm
        rw [if_pos hm2, if_pos hm]
        rfl
      · have hm2 : ¬(cellAt s HeapOrStackTag.Heap (e.value + 1)).mark = true := hm
        rw [if_neg hm2, if_neg hm]
        rw [IterState.push_stack, set_mark_at_stack]
        rfl
    rw [h5, h4, h3, hAstack, hfdef]
    simp only [List.append_assoc, List.cons_append, List.nil_append]
  refine ⟨s5.read_cell e, s5, hstep2, ?_, hstk5, ?_, ?_⟩
  · have h5 : (s5.read_cell e).payload = (s4.read_cell e).payload := by
      rw [read_cell_eq_cellAt, read_cell_eq_cellAt, hs5def]
      exact cellAt_fc_payload s4 first e.heap_or_stack e.value
    rw [h5, hs4def, read_cell_eq_cellAt, cellAt_push_stack, hs3def]
    unfold IterState.push_if_unmarked
    split
    · rw [← read_cell_eq_cellAt]
      have : A.read_cell e = s.read_cell e := by
        rw [read_cell_eq_cellAt, read_cell_eq_cellAt]
        exact hcellA _ _
      rw [this]
      exact hcell
    · rw [cellAt_push_stack]
      have h6 := cellAt_set_mark_payload A first true e.heap_or_stack e.value
      rw [h6, ← read_cell_eq_cellAt]
      have : A.read_cell e = s.read_cell e := by
        rw [read_cell_eq_cellAt, read_cell_eq_cellAt]
        exact hcellA _ _
      rw [this]
      exact hcell
  · intro hlt
    have h5 : (s5.heap.getD (e.value + 1) defaultCell).mark =
        (s4.heap.getD (e.value + 1) defaultCell).mark := by
      rw [hs5def]
      exact cellAt_fc_mark s4 first HeapOrStackTag.Heap (e.value + 1)
    have h4 : (s4.heap.getD (e.value + 1) defaultCell).mark =
        (s3.heap.getD (e.value + 1) defaultCell).mark := by
      rw [hs4def]
      rfl
    rw [h5, h4, hs3def]
    unfold IterState.push_if_unmarked
    rw [hfirstread]
    by_cases hm : (s.heap.getD (e.value + 1) defaultCell).mark = true
    · have hm2 : (cellAt s HeapOrStackTag.Heap (e.value + 1)).mark = true := hm
      rw [if_pos hm2]
      have : (A.heap.getD (e.value + 1) defaultCell).mark =
          (cellAt A HeapOrStackTag.Heap (e.value + 1)).mark := rfl
      rw [this, hcellA]
      exact hm
    · have hm2 : ¬(cellAt s HeapOrStackTag.Heap (e.value + 1)).mark = true := hm
      rw [if_neg hm2]
      have hps : ∀ l2 : IterStackLoc, (((A.set_mark_at first true).push_stack l2).heap.getD
          (e.value + 1) defaultCell).mark = (cellAt (A.set_mark_at first true)
          HeapOrStackTag.Heap (e.value + 1)).mark := fun l2 => rfl
      rw [hps, IterState.set_mark_at, cellAt_modify_cell, if_pos]
      · rfl
      · refine ⟨rfl, rfl, ?_⟩
        rw [hlenA]
        exact hlt
  · intro yss sf hsr
    obtain ⟨F, hF⟩ := segRuns_flatten s5.heap s5.machine_stack s5.h _ yss sf hsr
    refine ⟨F, ?_⟩
    have hs5eq : (IterState.mk s5.heap s5.machine_stack
        (((IterStackLoc.mark_loc (e.value + 1) HeapOrStackTag.Heap ::
          (if (s.heap.getD (e.value + 1) defaultCell).mark then ([] : List IterStackLoc)
           else [IterStackLoc.iterable_loc (e.value + 1) HeapOrStackTag.Heap])) ::
         (((List.range' (e.value + 2) (ar - 1)).map
           (fun i => [IterStackLoc.pending_mark_loc i HeapOrStackTag.Heap])) ++
          [rest])).flatten) s5.h) = s5 := by
      refine iterState_ext _ s5 rfl rfl ?_ rfl
      rw [hstk5]
      simp only [List.flatten_cons, List.flatten_append, flatten_map_singleton,
        List.flatten_nil, List.append_nil, List.cons_append, List.nil_append,
        List.append_assoc]
    rw [hs5eq] at hF
    exact hF

/-- Witness for the amended C6 statement at the concrete reachable state
c6_s2, whose top entry dispatches the header Atom(f,1) at position 0. -/
theorem c6_atom_dispatch_shape_witness :
    ∃ y s5, c6_s2.step = StepRes.yield y s5 ∧
      y.payload = CellPayload.Atom fSym 1 ∧
      s5.stack = IterStackLoc.mark_loc (0 + 1) HeapOrStackTag.Heap ::
        ((if (c6_s2.heap.getD (0 + 1) defaultCell).mark then ([] : List IterStackLoc)
          else [IterStackLoc.iterable_loc (0 + 1) HeapOrStackTag.Heap]) ++
         ((List.range' (0 + 2) (1 - 1)).map
           (fun i => IterStackLoc.pending_mark_loc i HeapOrStackTag.Heap)) ++
         [IterStackLoc.iterable_loc 0 HeapOrStackTag.Heap,
          IterStackLoc.iterable_loc 1 HeapOrStackTag.Heap]) ∧
      (0 + 1 < c6_s2.heap.length → (s5.heap.getD (0 + 1) defaultCell).mark = true) ∧
      (∀ yss sf, SegRuns s5.heap s5.machine_stack s5.h
          ((IterStackLoc.mark_loc (0 + 1) HeapOrStackTag.Heap ::
            (if (c6_s2.heap.getD (0 + 1) defaultCell).mark then ([] : List IterStackLoc)
             else [IterStackLoc.iterable_loc (0 + 1) HeapOrStackTag.Heap])) ::
           (((List.range' (0 + 2) (1 - 1)).map
             (fun i => [IterStackLoc.pending_mark_loc i HeapOrStackTag.Heap])) ++
            [[IterStackLoc.iterable_loc 0 HeapOrStackTag.Heap,
              IterStackLoc.iterable_loc 1 HeapOrStackTag.Heap]]))
          yss sf →
        ∃ F, runIter F s5 = some (yss.flatten, sf)) :=
  c6_atom_dispatch_shape c6_s2 (IterStackLoc.mark_loc 0 HeapOrStackTag.Heap)
    [IterStackLoc.iterable_loc 0 HeapOrStackTag.Heap,
     IterStackLoc.iterable_loc 1 HeapOrStackTag.Heap] fSym 1
    (by decide) (by decide) (by decide) (by decide) (Or.inr rfl) (by decide)

end HeapIterModel
